import Mathlib

/-!
Shallow embedding of the FEX constant-propagation pass
(`Source/Interface/IR/Passes/ConstProp.cpp`) and proofs about it.

The IR is modelled as an ordered list of `(id, node)` pairs: the list order is
program order, the `id` is the allocation-order node identifier (`IR::NodeID`).
Newly emitted nodes receive the next fresh id.  Machine integers are `Nat`
with explicit reduction modulo `2 ^ 64` where the C++ code computes in
`uint64_t`.  A shift whose amount would be 64 or more is undefined behaviour in
the source; such computations are modelled in `Option`, with `none` as the
error branch of a guarded shift.  Opcodes the pass never touches are collapsed
into the `Other` tag.
-/

namespace FEXIR

/-- Two to the sixty-fourth power, the modulus of `uint64_t` arithmetic. -/
def U64 : Nat := 2 ^ 64

/-- Reduction into `uint64_t` range. -/
def mask64 (v : Nat) : Nat := v % U64

/-- Wrapping `uint64_t` addition. -/
def uadd64 (a b : Nat) : Nat := (a + b) % U64

/-- Wrapping `uint64_t` subtraction `a - b`. -/
def usub64 (a b : Nat) : Nat := (a + (U64 - b % U64)) % U64

/-- Wrapping `uint64_t` negation `-a`. -/
def uneg64 (a : Nat) : Nat := (U64 - a % U64) % U64

/-- Wrapping `uint64_t` multiplication. -/
def umul64 (a b : Nat) : Nat := (a * b) % U64

/-- Guarded `uint64_t` left shift: shift amounts of 64 or more are undefined
behaviour in the source and are modelled as `none`. -/
def shlG (v n : Nat) : Option Nat :=
  if n ≤ 63 then some ((v <<< n) % U64) else none

/-- Guarded `uint64_t` logical right shift. -/
def shrG (v n : Nat) : Option Nat :=
  if n ≤ 63 then some ((v % U64) >>> n) else none

/-- Arithmetic (sign-replicating) right shift of a 64-bit pattern. -/
def asr64 (v n : Nat) : Nat :=
  if v < 2 ^ 63 then v >>> n else (v >>> n) + (U64 - 2 ^ (64 - n))

/-- Guarded `int64_t` arithmetic right shift. -/
def asrG (v n : Nat) : Option Nat :=
  if n ≤ 63 then some (asr64 (v % U64) n) else none

/-- The destination-width mask of `getMask` in the source:
`(~0ULL) >> (64 - Size * 8)`.  The shift is undefined behaviour unless the
byte size is between 1 and 8. -/
def getMaskG (size : Nat) : Option Nat :=
  let numBits := size * 8
  if 1 ≤ numBits ∧ numBits ≤ 64 then some ((U64 - 1) >>> (64 - numBits)) else none

/-- The bitfield source mask `Width == 64 ? ~0ULL : (1ULL << Width) - 1`. -/
def sourceMaskG (width : Nat) : Option Nat :=
  if width == 64 then some (U64 - 1) else (shlG 1 width).map (fun m => m - 1)

/-- Population count of the low 64 bits, as `std::popcount` on `uint64_t`. -/
def popcount64 (v : Nat) : Nat :=
  ((List.range 64).filter (fun i => v.testBit i)).length

/-- Count of trailing zeros, as `std::countr_zero` on `uint64_t` (64 for 0). -/
def ctz64 (v : Nat) : Nat :=
  (((List.range 64).find? (fun i => v.testBit i)).getD 64)

/-- Guarded `HasConsecutiveBits`: true iff the low `width` bits of `imm` are
all equal; `(1ULL << (width - 1))` is undefined behaviour for `width ≥ 65`. -/
def hasConsecutiveBitsG (imm width : Nat) : Option Bool :=
  if width == 0 then some true
  else (shlG 1 (width - 1)).map (fun m => ((imm ^^^ (imm >>> 1)) &&& (m - 1)) == 0)

/-- Modelled from the spec: the host assembler predicate `IsImmAddSub` is
provided by the vixl aarch64 assembler library, which is external to this
repository.  The spec defines it as: true iff the value fits in a 12-bit
unsigned field, optionally shifted left by 12. -/
def IsImmAddSub (imm : Nat) : Bool :=
  imm < 4096 || (imm % 4096 == 0 && imm / 4096 < 4096)

/-- Rotate a `e`-bit pattern right by `r`. -/
def rotrE (e v r : Nat) : Nat :=
  ((v >>> (r % e)) ||| (v <<< (e - r % e))) % 2 ^ e

/-- Replicate a `e`-bit pattern across `w` bits. -/
def replicateBits (e w pat : Nat) : Nat :=
  (List.range (w / e)).foldl (fun acc i => acc ||| (pat <<< (i * e))) 0

/-- Modelled from the spec: the host assembler predicate `IsImmLogical`
(vixl, external to this repository).  True iff the value is encodable as a
logical-immediate bitmask for a register of width `max(width, 32)`: a rotated
run of contiguous set bits within a power-of-two element size of 2..64 bits,
neither all-zero nor all-one.  The width bump below 32 is performed by the
wrapper in ConstProp.cpp itself. -/
def IsImmLogical (imm : Nat) (width : Nat) : Bool :=
  let w := if width < 32 then 32 else width
  [2, 4, 8, 16, 32, 64].any (fun e =>
    decide (e ≤ w) && (w % e == 0) &&
    (List.range (e - 1)).any (fun m =>
      (List.range e).any (fun r =>
        replicateBits e w (rotrE e (2 ^ (m + 1) - 1) r) == imm % 2 ^ w)))

/-- The AArch64 signed 9-bit unscaled range test of the source. -/
def IsSIMM9Range (imm : Nat) : Bool :=
  let v := imm % U64
  (U64 - 256 ≤ v || v ≤ 255)

/-- `IsImmMemory` from the source: signed 9-bit unscaled, or an aligned
non-negative multiple of the access size up to 4095 slots. -/
def IsImmMemory (imm : Nat) (accessSize : Nat) : Bool :=
  IsSIMM9Range imm || ((imm &&& (accessSize - 1)) == 0 && imm / accessSize ≤ 4095)

/-- `IsTSOImm9` from the source. -/
def IsTSOImm9 (imm : Nat) : Bool := IsSIMM9Range imm

/-- Shift kind carried by `SubShift`. -/
inductive ShiftType where
  | LSL | LSR | ASR | ROR
  deriving DecidableEq

/-- Memory offset extension kind carried by the memory opcodes. -/
inductive MemOffsetType where
  | SXTX | UXTW | SXTW
  deriving DecidableEq

/-- Opcode tag plus its immediate payload fields.  Only the opcodes the pass
inspects are distinguished; every other opcode of the IR is collapsed into
`Other`, which every sub-pass leaves untouched (the `default: break` cases). -/
inductive OpKind where
  | Constant (value : Nat)
  | InlineConstant (value : Nat)
  | Add | Sub | AddWithFlags | SubWithFlags
  | SubShift (shift : ShiftType) (shiftAmount : Nat)
  | And | Or | Xor | Neg
  | Orlshl (bitShift : Nat)
  | Orlshr (bitShift : Nat)
  | Lshl | Lshr
  | Bfe (width lsb : Nat)
  | Sbfe (width lsb : Nat)
  | Bfi (width lsb : Nat)
  | Mul
  | Vmov
  | Andn
  | Select
  | LoadMem (offsetType : MemOffsetType)
  | StoreMem (offsetType : MemOffsetType)
  | LoadMemTSO (offsetType : MemOffsetType)
  | StoreMemTSO (offsetType : MemOffsetType)
  | LoadContext
  | Other
  deriving DecidableEq

/-- One code node: opcode header (tag and immediates), result byte width, and
the vector of operand edges (`none` is the invalid sentinel). -/
structure Node where
  op : OpKind
  size : Nat
  args : List (Option Nat)
  deriving DecidableEq

/-- The IR view: nodes in program order, keyed by their allocation-order id,
plus the next fresh id. -/
structure IRState where
  nodes : List (Nat × Node)
  nextId : Nat
  deriving DecidableEq

/-- Positional list indexing for argument vectors. -/
def getIdx : List (Option Nat) → Nat → Option (Option Nat)
  | [], _ => none
  | a :: _, 0 => some a
  | _ :: rest, i + 1 => getIdx rest i

/-- Overwrite one argument slot (no-op when out of range). -/
def setIdx : List (Option Nat) → Nat → Option Nat → List (Option Nat)
  | [], _, _ => []
  | _ :: rest, 0, v => v :: rest
  | a :: rest, i + 1, v => a :: setIdx rest i v

/-- Read operand edge `i` of a node (`IROp->Args[i]`). -/
def argOf (n : Node) (i : Nat) : Option Nat := (getIdx n.args i).getD none

/-- Look a node up by id. -/
def lookupNode (s : IRState) (id : Nat) : Option Node :=
  (s.nodes.find? (fun p => p.1 == id)).map (fun p => p.2)

/-- Rewrite every node in place, keeping ids and order. -/
def mapNodes (s : IRState) (g : Nat → Node → Node) : IRState :=
  ⟨s.nodes.map (fun p => (p.1, g p.1 p.2)), s.nextId⟩

/-- Overwrite the node stored under `id`. -/
def setNode (s : IRState) (id : Nat) (m : Node) : IRState :=
  mapNodes s (fun j n => if j == id then m else n)

/-- `IREmitter::ReplaceWithConstant`: rewrite the node into a `Constant`
carrying `v`; uses are preserved. -/
def replaceWithConstant (s : IRState) (id : Nat) (v : Nat) : IRState :=
  match lookupNode s id with
  | some n => setNode s id ⟨.Constant v, n.size, []⟩
  | none => s

/-- One edge substitution step. -/
def substEdge (old new : Nat) (e : Option Nat) : Option Nat :=
  if e == some old then some new else e

/-- `IREmitter::ReplaceAllUsesWith`: redirect every edge into `old` to `new`. -/
def replaceAllUsesWith (s : IRState) (old new : Nat) : IRState :=
  mapNodes s (fun _ n => ⟨n.op, n.size, n.args.map (substEdge old new)⟩)

/-- `IREmitter::ReplaceUsesWithAfter`: redirect edges into `old` to `new`, but
only in nodes at list position `pos` or later. -/
def replaceUsesWithAfter (s : IRState) (old new pos : Nat) : IRState :=
  ⟨s.nodes.enum.map (fun q =>
      if pos ≤ q.1 then (q.2.1, ⟨q.2.2.op, q.2.2.size, q.2.2.args.map (substEdge old new)⟩)
      else q.2),
   s.nextId⟩

/-- `IREmitter::ReplaceNodeArgument`: overwrite a single operand edge. -/
def replaceNodeArgument (s : IRState) (id idx : Nat) (e : Option Nat) : IRState :=
  match lookupNode s id with
  | some n => setNode s id ⟨n.op, n.size, setIdx n.args idx e⟩
  | none => s

/-- Position of a node in program order. -/
def posOf (s : IRState) (id : Nat) : Nat :=
  s.nodes.findIdx (fun p => p.1 == id)

/-- Insert a fresh node right before the node with id `anchor`. -/
def insertBeforeAux (anchor newId : Nat) (nd : Node) : List (Nat × Node) → List (Nat × Node)
  | [] => [(newId, nd)]
  | p :: rest =>
    if p.1 == anchor then (newId, nd) :: p :: rest else p :: insertBeforeAux anchor newId nd rest

/-- Insert a fresh node right after the node with id `anchor`. -/
def insertAfterAux (anchor newId : Nat) (nd : Node) : List (Nat × Node) → List (Nat × Node)
  | [] => [(newId, nd)]
  | p :: rest =>
    if p.1 == anchor then p :: (newId, nd) :: rest else p :: insertAfterAux anchor newId nd rest

/-- Emit a node with the write cursor positioned before `anchor`
(`SetWriteCursorBefore`).  Returns the new state and the fresh id. -/
def emitBefore (s : IRState) (anchor : Nat) (nd : Node) : IRState × Nat :=
  (⟨insertBeforeAux anchor s.nextId nd s.nodes, s.nextId + 1⟩, s.nextId)

/-- Emit a node with the write cursor positioned at `anchor`
(`SetWriteCursor`): the node lands right after `anchor`. -/
def emitAfter (s : IRState) (anchor : Nat) (nd : Node) : IRState × Nat :=
  (⟨insertAfterAux anchor s.nextId nd s.nodes, s.nextId + 1⟩, s.nextId)

/-- `IREmitter::IsValueConstant`: the value behind an edge when the edge
refers to a `Constant` node.  A missing or invalid edge is not a constant. -/
def isValueConstant (s : IRState) (e : Option Nat) : Option Nat :=
  match e with
  | some id =>
    match lookupNode s id with
    | some n =>
      match n.op with
      | .Constant v => some v
      | _ => none
    | none => none
  | none => none

/-- The ids of the current nodes in program order (the iteration snapshot). -/
def idsOf (s : IRState) : List Nat := s.nodes.map (fun p => p.1)

/-- All fresh-id bookkeeping is consistent: every present id is below
`nextId`. -/
def wfFresh (s : IRState) : Prop := ∀ p ∈ s.nodes, p.1 < s.nextId

instance (s : IRState) : Decidable (wfFresh s) := List.decidableBAll _ _

/-- `IsBfeAlreadyDone`: the source of a `Bfe` is itself a `Bfe` whose width is
covered by the outer width. -/
def isBfeAlreadyDone (srcN : Node) (width : Nat) : Bool :=
  match srcN.op with
  | .Bfe w2 _ => decide (w2 ≤ width)
  | _ => false

/-- The zero-extending load opcodes (`LoadMem`, `LoadMemTSO`, `LoadContext`). -/
def isZextLoad : OpKind → Bool
  | .LoadMem _ => true
  | .LoadMemTSO _ => true
  | .LoadContext => true
  | _ => false

/-- The add/sub opcode flip of the negation rewrite. -/
def flipAddSub : OpKind → OpKind
  | .Add => .Sub
  | .Sub => .Add
  | .AddWithFlags => .SubWithFlags
  | .SubWithFlags => .AddWithFlags
  | k => k

/-- Fold value of `OP_ADD` with both operands constant. -/
def addFoldG (size c1 c2 : Nat) : Option Nat :=
  (getMaskG size).map (fun m => uadd64 c1 c2 &&& m)

/-- Fold value of `OP_SUB` with both operands constant. -/
def subFoldG (size c1 c2 : Nat) : Option Nat :=
  (getMaskG size).map (fun m => usub64 c1 c2 &&& m)

/-- Fold value of `OP_SUBSHIFT` (LSL) with both operands constant. -/
def subShiftFoldG (size amt c1 c2 : Nat) : Option Nat :=
  match shlG c2 amt with
  | none => none
  | some sh =>
    match getMaskG size with
    | none => none
    | some m => some (usub64 c1 sh &&& m)

/-- Fold value of `OP_AND` with both operands constant. -/
def andFoldG (size c1 c2 : Nat) : Option Nat :=
  (getMaskG size).map (fun m => (c1 &&& c2) &&& m)

/-- Fold value of `OP_ORLSHL` with both operands constant. -/
def orlshlFoldG (bitShift c1 c2 : Nat) : Option Nat :=
  (shlG c2 bitShift).map (fun sh => c1 ||| sh)

/-- Fold value of `OP_ORLSHR` with both operands constant. -/
def orlshrFoldG (bitShift c1 c2 : Nat) : Option Nat :=
  (shrG c2 bitShift).map (fun sh => c1 ||| sh)

/-- Fold value of `OP_LSHL` with both operands constant: the shift amount is
masked to the operating size first. -/
def lshlFoldG (size c1 c2 : Nat) : Option Nat :=
  let shiftMask : Nat := if size == 8 then 63 else 31
  (getMaskG size).map (fun m => mask64 (c1 <<< (c2 &&& shiftMask)) &&& m)

/-- Fold value of `OP_LSHR` with both operands constant. -/
def lshrFoldG (size c1 c2 : Nat) : Option Nat :=
  let shiftMask : Nat := if size == 8 then 63 else 31
  (getMaskG size).map (fun m => ((c1 % U64) >>> (c2 &&& shiftMask)) &&& m)

/-- Fold value of `OP_BFE` with a constant source. -/
def bfeFoldG (width lsb c : Nat) : Option Nat :=
  match sourceMaskG width with
  | none => none
  | some sm0 =>
    match shlG sm0 lsb with
    | none => none
    | some sm => shrG (c &&& sm) lsb

/-- Fold value of `OP_SBFE` with a constant source: extract, then sign-extend
from bit `width - 1` via the two `int64_t` shifts, then mask to the
destination width. -/
def sbfeFoldG (size width lsb c : Nat) : Option Nat :=
  match sourceMaskG width with
  | none => none
  | some sm0 =>
    match (if size * 8 == 64 then some (U64 - 1) else (shlG 1 (size * 8)).map (fun m => m - 1)) with
    | none => none
    | some dm =>
      match shlG sm0 lsb with
      | none => none
      | some sm =>
        match shrG (c &&& sm) lsb with
        | none => none
        | some x =>
          match shlG x (64 - width) with
          | none => none
          | some y =>
            match asrG y (64 - width) with
            | none => none
            | some z => some (z &&& dm)

/-- Fold value of `OP_BFI` with both operands constant. -/
def bfiFoldG (width lsb cd cs : Nat) : Option Nat :=
  match sourceMaskG width with
  | none => none
  | some sm =>
    match shlG sm lsb with
    | none => none
    | some shifted =>
      match shlG (cs &&& sm) lsb with
      | none => none
      | some ins => some ((cd &&& ((U64 - 1) ^^^ shifted)) ||| ins)

/-- The materialized mask `SourceMask << lsb` of the `Bfi` or/andn rewrite. -/
def bfiMaskG (width lsb : Nat) : Option Nat :=
  (sourceMaskG width).bind (fun sm => shlG sm lsb)

/-- Fold value of `OP_MUL` with both operands constant. -/
def mulFoldG (size c1 c2 : Nat) : Option Nat :=
  (getMaskG size).map (fun m => umul64 c1 c2 &&& m)

/-- The `OP_ADD` / `OP_SUB` / `OP_ADDWITHFLAGS` / `OP_SUBWITHFLAGS` case of
`ConstantPropagation`.  Only plain `Add` and `Sub` fold both-constant
operands; otherwise, a right constant outside the add/sub immediate window
whose negation is inside flips the opcode and negates the constant. -/
def stepAddSub (s : IRState) (id : Nat) (n : Node) : Option IRState :=
  match isValueConstant s (argOf n 0), isValueConstant s (argOf n 1), n.op with
  | some c1, some c2, .Add => (addFoldG n.size c1 c2).map (replaceWithConstant s id)
  | some c1, some c2, .Sub => (subFoldG n.size c1 c2).map (replaceWithConstant s id)
  | _, some c2, _ =>
    if !IsImmAddSub c2 && IsImmAddSub (uneg64 c2) then
      let s0 := setNode s id ⟨flipAddSub n.op, n.size, n.args⟩
      let r := emitBefore s0 id ⟨.Constant (uneg64 c2), 8, []⟩
      some (replaceNodeArgument r.1 id 1 (some r.2))
    else some s
  | _, _, _ => some s

/-- The `OP_SUBSHIFT` case of `ConstantPropagation`. -/
def stepSubShift (s : IRState) (id : Nat) (n : Node) (sty : ShiftType) (amt : Nat) :
    Option IRState :=
  match isValueConstant s (argOf n 0), isValueConstant s (argOf n 1), sty with
  | some c1, some c2, .LSL => (subShiftFoldG n.size amt c1 c2).map (replaceWithConstant s id)
  | _, _, _ => some s

/-- The `OP_AND` case of `ConstantPropagation`.  The `Constant2 == 1`
alternative of the source is unreachable: `IsValueConstant` short-circuits and
writes the output only on success, so `Constant2` is still zero-initialized on
every path reaching that test.  The same-operand elimination follows. -/
def stepAnd (s : IRState) (id : Nat) (n : Node) : Option IRState :=
  match isValueConstant s (argOf n 0), isValueConstant s (argOf n 1) with
  | some c1, some c2 => (andFoldG n.size c1 c2).map (replaceWithConstant s id)
  | _, _ =>
    if argOf n 0 == argOf n 1 then
      match argOf n 0 with
      | some a => some (replaceAllUsesWith s id a)
      | none => none
    else some s

/-- The `OP_OR` case of `ConstantPropagation`. -/
def stepOr (s : IRState) (id : Nat) (n : Node) : Option IRState :=
  match isValueConstant s (argOf n 0), isValueConstant s (argOf n 1) with
  | some c1, some c2 => some (replaceWithConstant s id (c1 ||| c2))
  | _, _ =>
    if argOf n 0 == argOf n 1 then
      match argOf n 0 with
      | some a => some (replaceAllUsesWith s id a)
      | none => none
    else some s

/-- The `OP_ORLSHL` case of `ConstantPropagation`. -/
def stepOrlshl (s : IRState) (id : Nat) (n : Node) (bitShift : Nat) : Option IRState :=
  match isValueConstant s (argOf n 0), isValueConstant s (argOf n 1) with
  | some c1, some c2 => (orlshlFoldG bitShift c1 c2).map (replaceWithConstant s id)
  | _, _ => some s

/-- The `OP_ORLSHR` case of `ConstantPropagation`. -/
def stepOrlshr (s : IRState) (id : Nat) (n : Node) (bitShift : Nat) : Option IRState :=
  match isValueConstant s (argOf n 0), isValueConstant s (argOf n 1) with
  | some c1, some c2 => (orlshrFoldG bitShift c1 c2).map (replaceWithConstant s id)
  | _, _ => some s

/-- The `OP_XOR` case of `ConstantPropagation`. -/
def stepXor (s : IRState) (id : Nat) (n : Node) : Option IRState :=
  match isValueConstant s (argOf n 0), isValueConstant s (argOf n 1) with
  | some c1, some c2 => some (replaceWithConstant s id (c1 ^^^ c2))
  | _, _ =>
    if argOf n 0 == argOf n 1 then
      let r := emitAfter s id ⟨.Constant 0, 8, []⟩
      some (replaceAllUsesWith r.1 id r.2)
    else
      match isValueConstant s (argOf n 0) with
      | some 0 =>
        match argOf n 1 with
        | some a => some (replaceAllUsesWith s id a)
        | none => none
      | _ =>
        match isValueConstant s (argOf n 1) with
        | some 0 =>
          match argOf n 0 with
          | some a => some (replaceAllUsesWith s id a)
          | none => none
        | _ => some s

/-- The `OP_NEG` case of `ConstantPropagation`. -/
def stepNeg (s : IRState) (id : Nat) (n : Node) : Option IRState :=
  match isValueConstant s (argOf n 0) with
  | some c => some (replaceWithConstant s id (uneg64 c))
  | none => some s

/-- The `OP_LSHL` case of `ConstantPropagation`. -/
def stepLshl (s : IRState) (id : Nat) (n : Node) : Option IRState :=
  match isValueConstant s (argOf n 0), isValueConstant s (argOf n 1) with
  | some c1, some c2 => (lshlFoldG n.size c1 c2).map (replaceWithConstant s id)
  | _, _ =>
    match isValueConstant s (argOf n 1) with
    | some 0 =>
      match argOf n 0 with
      | some a => some (replaceAllUsesWith s id a)
      | none => none
    | _ => some s

/-- The `OP_LSHR` case of `ConstantPropagation`. -/
def stepLshr (s : IRState) (id : Nat) (n : Node) : Option IRState :=
  match isValueConstant s (argOf n 0), isValueConstant s (argOf n 1) with
  | some c1, some c2 => (lshrFoldG n.size c1 c2).map (replaceWithConstant s id)
  | _, _ =>
    match isValueConstant s (argOf n 1) with
    | some 0 =>
      match argOf n 0 with
      | some a => some (replaceAllUsesWith s id a)
      | none => none
    | _ => some s

/-- The `OP_BFE` case of `ConstantPropagation`. -/
def stepBfe (s : IRState) (id : Nat) (n : Node) (width lsb : Nat) : Option IRState :=
  match argOf n 0 with
  | none => none
  | some srcId =>
    match lookupNode s srcId with
    | none => none
    | some srcN =>
      if isBfeAlreadyDone srcN width then
        some (replaceAllUsesWith s id srcId)
      else if lsb == 0 && decide (srcN.size * 8 ≤ width) && isZextLoad srcN.op then
        some (replaceAllUsesWith s id srcId)
      else
        let tail : Option IRState :=
          if n.size == srcN.size && width == n.size * 8 && lsb == 0 then
            -- a BFE that extracts all bits: the elimination is deliberately
            -- disabled in the source (upstream issue 351), nothing happens
            some s
          else if width == 1 && lsb == 0 then
            match srcN.op with
            | .Select =>
              match isValueConstant s (argOf srcN 2), isValueConstant s (argOf srcN 3) with
              | some 1, some 0 => some (replaceAllUsesWith s id srcId)
              | _, _ => some s
            | _ => some s
          else some s
        if n.size ≤ 8 then
          match isValueConstant s (some srcId) with
          | some c => (bfeFoldG width lsb c).map (replaceWithConstant s id)
          | none => tail
        else tail

/-- The `OP_SBFE` case of `ConstantPropagation`. -/
def stepSbfe (s : IRState) (id : Nat) (n : Node) (width lsb : Nat) : Option IRState :=
  match isValueConstant s (argOf n 0) with
  | some c => (sbfeFoldG n.size width lsb c).map (replaceWithConstant s id)
  | none => some s

/-- The `OP_BFI` case of `ConstantPropagation`. -/
def stepBfi (s : IRState) (id : Nat) (n : Node) (width lsb : Nat) : Option IRState :=
  match isValueConstant s (argOf n 0), isValueConstant s (argOf n 1) with
  | some cd, some cs => (bfiFoldG width lsb cd cs).map (replaceWithConstant s id)
  | none, some cs =>
    match hasConsecutiveBitsG cs width with
    | none => none
    | some false => some s
    | some true =>
      match bfiMaskG width lsb, argOf n 0 with
      | some nc, some a0 =>
        let r1 := emitAfter s id ⟨.Constant nc, 8, []⟩
        let r2 := emitAfter r1.1 r1.2
          ⟨if cs &&& 1 == 1 then OpKind.Or else OpKind.Andn, n.size, [some a0, some r1.2]⟩
        some (replaceAllUsesWith r2.1 id r2.2)
      | none, _ => none
      | _, none => none
  | _, _ => some s

/-- The `OP_MUL` case of `ConstantPropagation`. -/
def stepMul (s : IRState) (id : Nat) (n : Node) : Option IRState :=
  match isValueConstant s (argOf n 0), isValueConstant s (argOf n 1) with
  | some c1, some c2 => (mulFoldG n.size c1 c2).map (replaceWithConstant s id)
  | _, _ =>
    match isValueConstant s (argOf n 1) with
    | some c2 =>
      if popcount64 c2 == 1 then
        if n.size == 4 || n.size == 8 then
          match argOf n 0 with
          | some a0 =>
            let r1 := emitAfter s id ⟨.Constant (ctz64 c2), 8, []⟩
            let r2 := emitAfter r1.1 r1.2 ⟨.Lshl, n.size, [some a0, some r1.2]⟩
            some (replaceAllUsesWith r2.1 id r2.2)
          | none => none
        else some s
      else some s
    | none => some s

/-- The `OP_VMOV` case of `ConstantPropagation`. -/
def stepVmov (s : IRState) (id : Nat) (n : Node) : Option IRState :=
  match argOf n 0 with
  | none => none
  | some srcId =>
    match lookupNode s srcId with
    | none => none
    | some srcN =>
      if srcN.size ≤ n.size && isZextLoad srcN.op then
        some (replaceAllUsesWith s id srcId)
      else some s

/-- One `ConstantPropagation` dispatch for the node with id `id`: the
per-opcode switch of the source.  `none` marks a computation that runs into
undefined behaviour (a shift of 64 or more, or reading the header behind an
invalid edge). -/
def constPropNode (s : IRState) (id : Nat) : Option IRState :=
  match lookupNode s id with
  | none => some s
  | some n =>
    match n.op with
    | .Add | .Sub | .AddWithFlags | .SubWithFlags => stepAddSub s id n
    | .SubShift sty amt => stepSubShift s id n sty amt
    | .And => stepAnd s id n
    | .Or => stepOr s id n
    | .Orlshl b => stepOrlshl s id n b
    | .Orlshr b => stepOrlshr s id n b
    | .Xor => stepXor s id n
    | .Neg => stepNeg s id n
    | .Lshl => stepLshl s id n
    | .Lshr => stepLshr s id n
    | .Bfe w l => stepBfe s id n w l
    | .Sbfe w l => stepSbfe s id n w l
    | .Bfi w l => stepBfi s id n w l
    | .Mul => stepMul s id n
    | .Vmov => stepVmov s id n
    | _ => some s

/-- Run `ConstantPropagation` over a snapshot of node ids in order. -/
def constPropAll : IRState → List Nat → Option IRState
  | s, [] => some s
  | s, id :: rest =>
    match constPropNode s id with
    | none => none
    | some t => constPropAll t rest

/-- The per-value entry of the constant pool (`ConstPoolData`). -/
structure ConstPoolData where
  node : Nat
  nodeID : Nat
  deriving DecidableEq

/-- The per-block state of `HandleConstantPools`: the constant pool and the
address-gen constants map (the latter kept sorted by node id, matching the
pointer-ordered `fextl::map`). -/
structure PoolState where
  constPool : List (Nat × ConstPoolData)
  addressgenConsts : List (Nat × Nat)
  deriving DecidableEq

/-- The live-range heuristic bound (`CONSTANT_POOL_RANGE_LIMIT`). -/
def CONSTANT_POOL_RANGE_LIMIT : Nat := 500

/-- Wrapping `uint32_t` subtraction of node ids. -/
def wsub32 (a b : Nat) : Nat :=
  (a % 2 ^ 32 + (2 ^ 32 - b % 2 ^ 32)) % 2 ^ 32

/-- Find a pooled constant by value. -/
def poolFind (pool : List (Nat × ConstPoolData)) (v : Nat) : Option ConstPoolData :=
  (pool.find? (fun e => e.1 == v)).map (fun e => e.2)

/-- Insert or overwrite the pool entry for value `v`. -/
def poolSet : List (Nat × ConstPoolData) → Nat → ConstPoolData → List (Nat × ConstPoolData)
  | [], v, d => [(v, d)]
  | e :: rest, v, d => if e.1 == v then (v, d) :: rest else e :: poolSet rest v d

/-- Scan the address-gen map, in key order, for the first recorded constant
base within an unsigned 16-bit displacement below the address. -/
def agenFind (agen : List (Nat × Nat)) (addr : Nat) : Option (Nat × Nat) :=
  agen.find? (fun e => decide (usub64 addr e.2 < 65536))

/-- Record a node and its constant address, keeping the map sorted by the
node-id key. -/
def agenInsert : List (Nat × Nat) → Nat → Nat → List (Nat × Nat)
  | [], k, v => [(k, v)]
  | e :: rest, k, v =>
    if k < e.1 then (k, v) :: e :: rest
    else if k == e.1 then (k, v) :: rest
    else e :: agenInsert rest k v

/-- Modelled from the spec: the argument layout of the memory opcodes
(`Addr_Index` / `Offset_Index` come from the IR opcode definitions, outside
this file).  The address is argument 0; the offset is argument 1 for loads
and argument 2 for stores (the stored value sits in between). -/
def offsetIndexOf : OpKind → Nat
  | .StoreMem _ => 2
  | .StoreMemTSO _ => 2
  | _ => 1

/-- The address argument index of the memory opcodes. -/
def addrIndexOf : OpKind → Nat := fun _ => 0

/-- One step of `HandleConstantPools`: the `OP_LOADMEM` / `OP_STOREMEM`
address coalescing and the `OP_CONSTANT` pooling; all other opcodes pass
through. -/
def poolNode (s : IRState) (ps : PoolState) (id : Nat) : IRState × PoolState :=
  match lookupNode s id with
  | none => (s, ps)
  | some n =>
    match n.op with
    | .LoadMem _ | .StoreMem _ =>
      let ai := addrIndexOf n.op
      let oi := offsetIndexOf n.op
      match isValueConstant s (argOf n ai), argOf n oi with
      | some addr, none =>
        match agenFind ps.addressgenConsts addr with
        | some hit =>
          let s1 := replaceNodeArgument s id ai (some hit.1)
          let r := emitBefore s1 id ⟨.Constant (usub64 addr hit.2), 8, []⟩
          (replaceNodeArgument r.1 id oi (some r.2), ps)
        | none =>
          match argOf n ai with
          | some addrNode =>
            (s, ⟨ps.constPool, agenInsert ps.addressgenConsts addrNode addr⟩)
          | none => (s, ps)
      | _, _ => (s, ps)
    | .Constant v =>
      match poolFind ps.constPool v with
      | some d =>
        if wsub32 id d.nodeID > CONSTANT_POOL_RANGE_LIMIT then
          (s, ⟨poolSet ps.constPool v ⟨id, id⟩, ps.addressgenConsts⟩)
        else
          (replaceUsesWithAfter s id d.node (posOf s id), ps)
      | none => (s, ⟨poolSet ps.constPool v ⟨id, id⟩, ps.addressgenConsts⟩)
    | _ => (s, ps)

/-- Walk a block in program order, threading the per-block maps. -/
def poolWalk : List Nat → IRState → PoolState → IRState × PoolState
  | [], s, ps => (s, ps)
  | id :: rest, s, ps =>
    let r := poolNode s ps id
    poolWalk rest r.1 r.2

/-- `HandleConstantPools` over the node list, modelled as a single basic
block: the per-block maps start empty and are discarded (cleared) at the
block boundary. -/
def handleConstantPools (s : IRState) : IRState :=
  (poolWalk (idsOf s) s ⟨[], []⟩).1

/-- `CreateInlineConstant`: reuse a cached inline-constant node for the value,
or emit a fresh one at the write cursor.  Returns the state, the cache, the
node to use, and the updated cursor. -/
def createInlineConstant (s : IRState) (cache : List (Nat × Nat)) (cursor v : Nat) :
    IRState × List (Nat × Nat) × Nat × Nat :=
  match cache.find? (fun e => e.1 == v) with
  | some e => (s, cache, e.2, cursor)
  | none =>
    let r := emitAfter s cursor ⟨.InlineConstant v, 8, []⟩
    (r.1, (v, r.2) :: cache, r.2, r.2)

/-- Replace argument `idx` of node `id` with an inline constant for `v`,
emitting at `cursor` when the cache misses. -/
def inlineArg (s : IRState) (cache : List (Nat × Nat)) (id idx cursor v : Nat) :
    IRState × List (Nat × Nat) :=
  let r := createInlineConstant s cache cursor v
  (replaceNodeArgument r.1 id idx (some r.2.2.1), r.2.1)

/-- The shift cases (`OP_LSHR`, `OP_LSHL`) of `ConstantInlining`: any constant
shift amount is masked to the operating size and inlined. -/
def inlineShift (s : IRState) (cache : List (Nat × Nat)) (id : Nat) (n : Node) :
    IRState × List (Nat × Nat) :=
  match isValueConstant s (argOf n 1), argOf n 1 with
  | some c2, some a1 =>
    let c2m := if n.size ≤ 4 then c2 &&& 31 else c2 &&& 63
    inlineArg s cache id 1 a1 c2m
  | _, _ => (s, cache)

/-- The add/sub cases of `ConstantInlining`. -/
def inlineAddSub (s : IRState) (cache : List (Nat × Nat)) (id : Nat) (n : Node) :
    IRState × List (Nat × Nat) :=
  match isValueConstant s (argOf n 1) with
  | some c2 =>
    if IsImmAddSub c2 && decide (4 ≤ n.size) then
      match argOf n 1 with
      | some a1 => inlineArg s cache id 1 a1 c2
      | none => (s, cache)
    else (s, cache)
  | none =>
    if n.op == .Sub || n.op == .SubWithFlags then
      match isValueConstant s (argOf n 0), argOf n 0 with
      | some 0, some a0 => inlineArg s cache id 0 a0 0
      | _, _ => (s, cache)
    else (s, cache)

/-- The code value `AllOnes` of the select cases: all 64 bits when the
destination is 8 bytes wide, the low 32 bits otherwise. -/
def allOnesFor (size : Nat) : Nat :=
  if size == 8 then U64 - 1 else 4294967295

/-- The arguments 2 and 3 part of the `OP_SELECT` case of `ConstantInlining`:
the header and the arguments are re-read through the node id after the
argument 1 rewrite, matching the live reads of the source. -/
def inlineSelectArgs23 (s : IRState) (cache : List (Nat × Nat)) (id : Nat) :
    IRState × List (Nat × Nat) :=
  match lookupNode s id with
  | none => (s, cache)
  | some nA =>
    let allOnes := allOnesFor nA.size
    match isValueConstant s (argOf nA 2), isValueConstant s (argOf nA 3),
        argOf nA 2, argOf nA 3 with
    | some c2, some c3, some a2, some _ =>
      if (c2 == 1 || c2 == allOnes) && c3 == 0 then
        let r2 := createInlineConstant s cache a2 c2
        let sB := replaceNodeArgument r2.1 id 2 (some r2.2.2.1)
        let r3 := createInlineConstant sB r2.2.1 r2.2.2.2 c3
        (replaceNodeArgument r3.1 id 3 (some r3.2.2.1), r3.2.1)
      else (s, cache)
    | _, _, _, _ => (s, cache)

/-- The `OP_SELECT` case of `ConstantInlining`: argument 1 inlines under the
add/sub immediate window; arguments 2 and 3 inline together when they are the
1-or-all-ones / zero pattern. -/
def inlineSelect (s : IRState) (cache : List (Nat × Nat)) (id : Nat) (n : Node) :
    IRState × List (Nat × Nat) :=
  let r1 :=
    match isValueConstant s (argOf n 1), argOf n 1 with
    | some c1, some a1 =>
      if IsImmAddSub c1 then inlineArg s cache id 1 a1 c1 else (s, cache)
    | _, _ => (s, cache)
  inlineSelectArgs23 r1.1 r1.2 id

/-- The logical cases (`OP_OR`, `OP_XOR`, `OP_AND`, `OP_ANDN`) of
`ConstantInlining`. -/
def inlineLogical (s : IRState) (cache : List (Nat × Nat)) (id : Nat) (n : Node) :
    IRState × List (Nat × Nat) :=
  match isValueConstant s (argOf n 1), argOf n 1 with
  | some c2, some a1 =>
    if IsImmLogical c2 (n.size * 8) then inlineArg s cache id 1 a1 c2 else (s, cache)
  | _, _ => (s, cache)

/-- The memory-offset cases (`OP_LOADMEM`, `OP_STOREMEM`) of
`ConstantInlining`. -/
def inlineMemImm (s : IRState) (cache : List (Nat × Nat)) (id : Nat) (n : Node) (oi : Nat) :
    IRState × List (Nat × Nat) :=
  match isValueConstant s (argOf n oi), argOf n oi with
  | some c2, some aoff =>
    if IsImmMemory c2 n.size then inlineArg s cache id oi aoff c2 else (s, cache)
  | _, _ => (s, cache)

/-- The TSO memory-offset cases of `ConstantInlining`. -/
def inlineMemTSO (s : IRState) (cache : List (Nat × Nat)) (id : Nat) (n : Node) (oi : Nat) :
    IRState × List (Nat × Nat) :=
  match isValueConstant s (argOf n oi), argOf n oi with
  | some c2, some aoff =>
    if IsTSOImm9 c2 then inlineArg s cache id oi aoff c2 else (s, cache)
  | _, _ => (s, cache)

/-- One `ConstantInlining` dispatch for the node `id`, threading the
inline-constant cache. -/
def inlineNode (tso : Bool) (acc : IRState × List (Nat × Nat)) (id : Nat) :
    IRState × List (Nat × Nat) :=
  match lookupNode acc.1 id with
  | none => acc
  | some n =>
    match n.op with
    | .Lshr | .Lshl => inlineShift acc.1 acc.2 id n
    | .Add | .Sub | .AddWithFlags | .SubWithFlags => inlineAddSub acc.1 acc.2 id n
    | .Select => inlineSelect acc.1 acc.2 id n
    | .Or | .Xor | .And | .Andn => inlineLogical acc.1 acc.2 id n
    | .LoadMem ot =>
      if ot == .SXTX then inlineMemImm acc.1 acc.2 id n (offsetIndexOf n.op) else acc
    | .StoreMem ot =>
      if ot == .SXTX then inlineMemImm acc.1 acc.2 id n (offsetIndexOf n.op) else acc
    | .LoadMemTSO ot =>
      if tso && ot == .SXTX then inlineMemTSO acc.1 acc.2 id n (offsetIndexOf n.op) else acc
    | .StoreMemTSO ot =>
      if tso && ot == .SXTX then inlineMemTSO acc.1 acc.2 id n (offsetIndexOf n.op) else acc
    | _ => acc

/-- `ConstantInlining`: clear the cache, then one pass over the code. -/
def constantInlining (tso : Bool) (s : IRState) : IRState :=
  ((idsOf s).foldl (inlineNode tso) (s, [])).1

/-- `ConstProp::Run`: constant pools, then constant propagation over a
snapshot of the code, then (when enabled) constant inlining. -/
def runPass (inlineConstants tso : Bool) (s : IRState) : Option IRState :=
  let s1 := handleConstantPools s
  match constPropAll s1 (idsOf s1) with
  | none => none
  | some s2 => some (if inlineConstants then constantInlining tso s2 else s2)

/-- The inline-constant cache is well formed with respect to a state: every
cached id resolves to the inline-constant node it was created as. -/
def wfCache (s : IRState) (cache : List (Nat × Nat)) : Prop :=
  ∀ e ∈ cache, lookupNode s e.2 = some ⟨.InlineConstant e.1, 8, []⟩

instance (s : IRState) (cache : List (Nat × Nat)) : Decidable (wfCache s cache) :=
  List.decidableBAll _ _

/-- The constant-fold opcodes whose folds apply the destination-width mask. -/
def maskedFoldTag : OpKind → Bool
  | .Add | .Sub => true
  | .SubShift _ _ => true
  | .And | .Lshl | .Lshr | .Mul => true
  | .Sbfe _ _ => true
  | _ => false

/-- Example block: a four-byte `Neg` of the constant 1. -/
def negFoldEx : IRState := ⟨[(0, ⟨.Constant 1, 8, []⟩), (1, ⟨.Neg, 4, [some 0]⟩)], 2⟩

/-- Example block: a four-byte `AddWithFlags` of the constants 7 and 5. -/
def addWithFlagsEx : IRState :=
  ⟨[(0, ⟨.Constant 7, 8, []⟩), (1, ⟨.Constant 5, 8, []⟩),
    (2, ⟨.AddWithFlags, 4, [some 0, some 1]⟩)], 3⟩

/-- Example block: a four-byte `Add` of the constants 7 and 5 (scenario S1). -/
def addFoldEx : IRState :=
  ⟨[(0, ⟨.Constant 7, 8, []⟩), (1, ⟨.Constant 5, 8, []⟩),
    (2, ⟨.Add, 4, [some 0, some 1]⟩)], 3⟩

/-- Example block: a one-byte `And` of the constants 300 and 100. -/
def andFoldEx : IRState :=
  ⟨[(0, ⟨.Constant 300, 8, []⟩), (1, ⟨.Constant 100, 8, []⟩),
    (2, ⟨.And, 1, [some 0, some 1]⟩)], 3⟩

/-- Example block: a `Bfe` of width 4 whose source is a `Bfe` of width 8,
with a user of the outer extract. -/
def bfeChainWideSrcEx : IRState :=
  ⟨[(0, ⟨.Other, 8, []⟩), (1, ⟨.Bfe 8 0, 8, [some 0]⟩),
    (2, ⟨.Bfe 4 0, 8, [some 1]⟩), (3, ⟨.Neg, 8, [some 2]⟩)], 4⟩

/-- Example block: a `Bfe` of width 8 whose source is a `Bfe` of width 4,
with a user of the outer extract. -/
def bfeChainNarrowSrcEx : IRState :=
  ⟨[(0, ⟨.Other, 8, []⟩), (1, ⟨.Bfe 4 0, 8, [some 0]⟩),
    (2, ⟨.Bfe 8 0, 8, [some 1]⟩), (3, ⟨.Neg, 8, [some 2]⟩)], 4⟩

/-- Example block: a full-width `Bfe` (width 32 of a 4-byte value) over a
non-constant, non-load, non-Bfe source. -/
def bfeFullWidthEx : IRState :=
  ⟨[(0, ⟨.Other, 4, []⟩), (1, ⟨.Bfe 32 0, 4, [some 0]⟩)], 2⟩

/-- Example block: two `Constant 7` nodes within the pooling range and a user
of the second. -/
def poolRedirectEx : IRState :=
  ⟨[(0, ⟨.Constant 7, 8, []⟩), (1, ⟨.Constant 7, 8, []⟩), (2, ⟨.Neg, 8, [some 1]⟩)], 3⟩

/-- Example block: an `Sbfe` of width 1 and lsb 200 over a constant. -/
def sbfeLargeLsbEx : IRState :=
  ⟨[(0, ⟨.Constant 5, 8, []⟩), (1, ⟨.Sbfe 1 200, 8, [some 0]⟩)], 2⟩

/-- Example block: a `Select` of width 2 with a 64-bit all-ones argument 2
and zero argument 3. -/
def selectSmallEx : IRState :=
  ⟨[(0, ⟨.Other, 8, []⟩), (1, ⟨.Other, 8, []⟩), (2, ⟨.Constant (2 ^ 64 - 1), 8, []⟩),
    (3, ⟨.Constant 0, 8, []⟩), (4, ⟨.Select, 2, [some 0, some 1, some 2, some 3]⟩)], 5⟩

/-- Example block: a `Select` of width 4 with a 32-bit all-ones argument 2
and zero argument 3. -/
def selectInlineEx : IRState :=
  ⟨[(0, ⟨.Other, 8, []⟩), (1, ⟨.Other, 8, []⟩), (2, ⟨.Constant 4294967295, 8, []⟩),
    (3, ⟨.Constant 0, 8, []⟩), (4, ⟨.Select, 4, [some 0, some 1, some 2, some 3]⟩)], 5⟩

/-- Example block: a same-operand `Xor`. -/
def xorSameEx : IRState := ⟨[(0, ⟨.Other, 8, []⟩), (1, ⟨.Xor, 8, [some 0, some 0]⟩)], 2⟩

/-- The output of one pass run on `xorSameEx`. -/
def xorSameOnce : IRState :=
  ⟨[(0, ⟨.Other, 8, []⟩), (1, ⟨.Xor, 8, [some 0, some 0]⟩), (2, ⟨.Constant 0, 8, []⟩)], 3⟩

/-- The output of two pass runs on `xorSameEx`. -/
def xorSameTwice : IRState :=
  ⟨[(0, ⟨.Other, 8, []⟩), (1, ⟨.Xor, 8, [some 0, some 0]⟩), (3, ⟨.Constant 0, 8, []⟩),
    (2, ⟨.Constant 0, 8, []⟩)], 4⟩

/-- Example block: a single node the pass never touches. -/
def singleOtherEx : IRState := ⟨[(0, ⟨.Other, 8, []⟩)], 1⟩

/-- Example block: two `LoadMem` at constant addresses 0x1000 and 0x1040 with
invalid offsets (scenario S5). -/
def agenEx : IRState :=
  ⟨[(0, ⟨.Constant 4096, 8, []⟩), (1, ⟨.LoadMem .SXTX, 8, [some 0, none]⟩),
    (2, ⟨.Constant 4160, 8, []⟩), (3, ⟨.LoadMem .SXTX, 8, [some 2, none]⟩)], 4⟩

/-- Example block: an eight-byte `Add` whose right operand is the constant
`0xFFFFFFFFFFFFF000` (scenario S2). -/
def negFlipEx : IRState :=
  ⟨[(0, ⟨.Other, 8, []⟩), (1, ⟨.Constant (2 ^ 64 - 4096), 8, []⟩),
    (2, ⟨.Add, 8, [some 0, some 1]⟩)], 3⟩

section LookupLemmas

theorem lookupNode_mapNodes (s : IRState) (g : Nat → Node → Node) (id : Nat) :
    lookupNode (mapNodes s g) id = (lookupNode s id).map (g id) := by
  obtain ⟨l, k⟩ := s
  simp only [lookupNode, mapNodes]
  induction l with
  | nil => rfl
  | cons p rest ih =>
    simp only [List.map_cons]
    by_cases h : p.1 = id
    · rw [List.find?_cons_of_pos _ (by simpa using h), List.find?_cons_of_pos _ (by simpa using h)]
      simp [h]
    · rw [List.find?_cons_of_neg _ (by simpa using h), List.find?_cons_of_neg _ (by simpa using h)]
      exact ih

theorem lookupNode_setNode_self (s : IRState) (id : Nat) (n m : Node)
    (h : lookupNode s id = some n) : lookupNode (setNode s id m) id = some m := by
  rw [setNode, lookupNode_mapNodes, h]
  simp

theorem lookupNode_setNode_ne (s : IRState) (id j : Nat) (m : Node) (h : j ≠ id) :
    lookupNode (setNode s id m) j = lookupNode s j := by
  rw [setNode, lookupNode_mapNodes]
  cases lookupNode s j <;> simp [h]

theorem lookupNode_replaceWithConstant (s : IRState) (id : Nat) (n : Node) (v : Nat)
    (h : lookupNode s id = some n) :
    lookupNode (replaceWithConstant s id v) id = some ⟨.Constant v, n.size, []⟩ := by
  rw [replaceWithConstant, h]
  exact lookupNode_setNode_self _ _ _ _ h

theorem lookupNode_rauw (s : IRState) (a b j : Nat) :
    lookupNode (replaceAllUsesWith s a b) j =
      (lookupNode s j).map (fun n => ⟨n.op, n.size, n.args.map (substEdge a b)⟩) :=
  lookupNode_mapNodes s _ j

theorem lookupNode_replaceNodeArgument_self (s : IRState) (id idx : Nat) (e : Option Nat)
    (n : Node) (h : lookupNode s id = some n) :
    lookupNode (replaceNodeArgument s id idx e) id = some ⟨n.op, n.size, setIdx n.args idx e⟩ := by
  rw [replaceNodeArgument, h]
  exact lookupNode_setNode_self _ _ _ _ h

theorem lookupNode_replaceNodeArgument_ne (s : IRState) (id idx j : Nat) (e : Option Nat)
    (h : j ≠ id) :
    lookupNode (replaceNodeArgument s id idx e) j = lookupNode s j := by
  rw [replaceNodeArgument]
  cases lookupNode s id
  · rfl
  · exact lookupNode_setNode_ne _ _ _ _ h

theorem mem_insertBeforeAux (anchor newId : Nat) (nd : Node) (l : List (Nat × Node))
    (q : Nat × Node) :
    q ∈ insertBeforeAux anchor newId nd l ↔ q ∈ l ∨ q = (newId, nd) := by
  induction l with
  | nil => simp [insertBeforeAux]
  | cons p rest ih =>
    by_cases h : p.1 = anchor
    · simp [insertBeforeAux, h]
      tauto
    · simp [insertBeforeAux, h, ih]
      tauto

theorem mem_insertAfterAux (anchor newId : Nat) (nd : Node) (l : List (Nat × Node))
    (q : Nat × Node) :
    q ∈ insertAfterAux anchor newId nd l ↔ q ∈ l ∨ q = (newId, nd) := by
  induction l with
  | nil => simp [insertAfterAux]
  | cons p rest ih =>
    by_cases h : p.1 = anchor
    · simp [insertAfterAux, h]
      tauto
    · simp [insertAfterAux, h, ih]
      tauto

theorem find?_insertBeforeAux_ne (anchor newId : Nat) (nd : Node) (l : List (Nat × Node))
    (j : Nat) (hj : j ≠ newId) :
    (insertBeforeAux anchor newId nd l).find? (fun p => p.1 == j) =
      l.find? (fun p => p.1 == j) := by
  induction l with
  | nil =>
    have hb : (newId == j) = false := by simpa using Ne.symm hj
    simp [insertBeforeAux, List.find?, hb]
  | cons p rest ih =>
    by_cases h : p.1 = anchor
    · simp only [insertBeforeAux, if_pos (show (p.1 == anchor) = true by simpa using h)]
      rw [List.find?_cons_of_neg _ (by simpa using Ne.symm hj)]
    · simp only [insertBeforeAux, if_neg (show ¬ (p.1 == anchor) = true by simpa using h)]
      by_cases hp : p.1 = j
      · rw [List.find?_cons_of_pos _ (by simpa using hp),
          List.find?_cons_of_pos _ (by simpa using hp)]
      · rw [List.find?_cons_of_neg _ (by simpa using hp),
          List.find?_cons_of_neg _ (by simpa using hp)]
        exact ih

theorem find?_insertAfterAux_ne (anchor newId : Nat) (nd : Node) (l : List (Nat × Node))
    (j : Nat) (hj : j ≠ newId) :
    (insertAfterAux anchor newId nd l).find? (fun p => p.1 == j) =
      l.find? (fun p => p.1 == j) := by
  induction l with
  | nil =>
    have hb : (newId == j) = false := by simpa using Ne.symm hj
    simp [insertAfterAux, List.find?, hb]
  | cons p rest ih =>
    by_cases h : p.1 = anchor
    · simp only [insertAfterAux, if_pos (show (p.1 == anchor) = true by simpa using h)]
      by_cases hp : p.1 = j
      · rw [List.find?_cons_of_pos _ (by simpa using hp),
          List.find?_cons_of_pos _ (by simpa using hp)]
      · rw [List.find?_cons_of_neg _ (by simpa using hp),
          List.find?_cons_of_neg _ (by simpa using Ne.symm hj),
          List.find?_cons_of_neg _ (by simpa using hp)]
    · simp only [insertAfterAux, if_neg (show ¬ (p.1 == anchor) = true by simpa using h)]
      by_cases hp : p.1 = j
      · rw [List.find?_cons_of_pos _ (by simpa using hp),
          List.find?_cons_of_pos _ (by simpa using hp)]
      · rw [List.find?_cons_of_neg _ (by simpa using hp),
          List.find?_cons_of_neg _ (by simpa using hp)]
        exact ih

theorem find?_insertBeforeAux_new (anchor newId : Nat) (nd : Node) (l : List (Nat × Node))
    (hfresh : ∀ p ∈ l, p.1 ≠ newId) :
    (insertBeforeAux anchor newId nd l).find? (fun p => p.1 == newId) = some (newId, nd) := by
  induction l with
  | nil => simp [insertBeforeAux, List.find?]
  | cons p rest ih =>
    have hp : p.1 ≠ newId := hfresh p (List.mem_cons_self _ _)
    by_cases h : p.1 = anchor
    · simp only [insertBeforeAux, if_pos (show (p.1 == anchor) = true by simpa using h)]
      rw [List.find?_cons_of_pos _ (by simp)]
    · simp only [insertBeforeAux, if_neg (show ¬ (p.1 == anchor) = true by simpa using h)]
      rw [List.find?_cons_of_neg _ (by simpa using hp)]
      exact ih (fun q hq => hfresh q (List.mem_cons_of_mem _ hq))

theorem find?_insertAfterAux_new (anchor newId : Nat) (nd : Node) (l : List (Nat × Node))
    (hfresh : ∀ p ∈ l, p.1 ≠ newId) :
    (insertAfterAux anchor newId nd l).find? (fun p => p.1 == newId) = some (newId, nd) := by
  induction l with
  | nil => simp [insertAfterAux, List.find?]
  | cons p rest ih =>
    have hp : p.1 ≠ newId := hfresh p (List.mem_cons_self _ _)
    by_cases h : p.1 = anchor
    · simp only [insertAfterAux, if_pos (show (p.1 == anchor) = true by simpa using h)]
      rw [List.find?_cons_of_neg _ (by simpa using hp), List.find?_cons_of_pos _ (by simp)]
    · simp only [insertAfterAux, if_neg (show ¬ (p.1 == anchor) = true by simpa using h)]
      rw [List.find?_cons_of_neg _ (by simpa using hp)]
      exact ih (fun q hq => hfresh q (List.mem_cons_of_mem _ hq))

theorem lookupNode_mem (s : IRState) (j : Nat) (n : Node) (h : lookupNode s j = some n) :
    (j, n) ∈ s.nodes := by
  unfold lookupNode at h
  rcases Option.map_eq_some'.mp h with ⟨q, hq, hv⟩
  have hkey : q.1 = j := by simpa using List.find?_some hq
  have : q = (j, n) := by
    cases q
    simp only at hkey hv
    simp [hkey, hv]
  exact this ▸ List.mem_of_find?_eq_some hq

theorem lookupNode_lt_nextId (s : IRState) (j : Nat) (n : Node) (hf : wfFresh s)
    (h : lookupNode s j = some n) : j < s.nextId :=
  hf (j, n) (lookupNode_mem s j n h)

theorem lookupNode_emitBefore_old (s : IRState) (anchor : Nat) (nd : Node) (j : Nat) (n : Node)
    (hf : wfFresh s) (h : lookupNode s j = some n) :
    lookupNode (emitBefore s anchor nd).1 j = some n := by
  have hj : j ≠ s.nextId := Nat.ne_of_lt (lookupNode_lt_nextId s j n hf h)
  unfold emitBefore lookupNode
  rw [find?_insertBeforeAux_ne _ _ _ _ _ hj]
  exact h

theorem lookupNode_emitAfter_old (s : IRState) (anchor : Nat) (nd : Node) (j : Nat) (n : Node)
    (hf : wfFresh s) (h : lookupNode s j = some n) :
    lookupNode (emitAfter s anchor nd).1 j = some n := by
  have hj : j ≠ s.nextId := Nat.ne_of_lt (lookupNode_lt_nextId s j n hf h)
  unfold emitAfter lookupNode
  rw [find?_insertAfterAux_ne _ _ _ _ _ hj]
  exact h

theorem lookupNode_emitBefore_new (s : IRState) (anchor : Nat) (nd : Node) (hf : wfFresh s) :
    lookupNode (emitBefore s anchor nd).1 s.nextId = some nd := by
  unfold emitBefore lookupNode
  rw [find?_insertBeforeAux_new _ _ _ _
    (fun p hp => Nat.ne_of_lt (hf p hp))]
  rfl

theorem lookupNode_emitAfter_new (s : IRState) (anchor : Nat) (nd : Node) (hf : wfFresh s) :
    lookupNode (emitAfter s anchor nd).1 s.nextId = some nd := by
  unfold emitAfter lookupNode
  rw [find?_insertAfterAux_new _ _ _ _
    (fun p hp => Nat.ne_of_lt (hf p hp))]
  rfl

theorem wfFresh_mapNodes (s : IRState) (g : Nat → Node → Node) (hf : wfFresh s) :
    wfFresh (mapNodes s g) := by
  intro p hp
  simp only [mapNodes, List.mem_map] at hp
  rcases hp with ⟨q, hq, he⟩
  have := hf q hq
  simp [mapNodes, ← he]
  omega

theorem wfFresh_setNode (s : IRState) (id : Nat) (m : Node) (hf : wfFresh s) :
    wfFresh (setNode s id m) := wfFresh_mapNodes s _ hf

theorem wfFresh_replaceWithConstant (s : IRState) (id v : Nat) (hf : wfFresh s) :
    wfFresh (replaceWithConstant s id v) := by
  unfold replaceWithConstant
  cases lookupNode s id
  · exact hf
  · exact wfFresh_setNode _ _ _ hf

theorem wfFresh_rauw (s : IRState) (a b : Nat) (hf : wfFresh s) :
    wfFresh (replaceAllUsesWith s a b) := wfFresh_mapNodes s _ hf

theorem wfFresh_replaceNodeArgument (s : IRState) (id idx : Nat) (e : Option Nat)
    (hf : wfFresh s) : wfFresh (replaceNodeArgument s id idx e) := by
  unfold replaceNodeArgument
  cases lookupNode s id
  · exact hf
  · exact wfFresh_setNode _ _ _ hf

theorem wfFresh_emitBefore (s : IRState) (anchor : Nat) (nd : Node) (hf : wfFresh s) :
    wfFresh (emitBefore s anchor nd).1 := by
  intro p hp
  simp only [emitBefore] at hp
  rcases (mem_insertBeforeAux _ _ _ _ _).mp hp with h1 | h1
  · exact Nat.lt_succ_of_lt (hf p h1)
  · simp [emitBefore, h1]

theorem wfFresh_emitAfter (s : IRState) (anchor : Nat) (nd : Node) (hf : wfFresh s) :
    wfFresh (emitAfter s anchor nd).1 := by
  intro p hp
  simp only [emitAfter] at hp
  rcases (mem_insertAfterAux _ _ _ _ _).mp hp with h1 | h1
  · exact Nat.lt_succ_of_lt (hf p h1)
  · simp [emitAfter, h1]

end LookupLemmas

theorem getMaskG_eq (sz : Nat) (hsz : sz = 1 ∨ sz = 2 ∨ sz = 4 ∨ sz = 8) :
    getMaskG sz = some (2 ^ (8 * sz) - 1) := by
  rcases hsz with h | h | h | h <;> subst h <;> decide

theorem wsub32_eq (a b : Nat) (hba : b ≤ a) (ha : a < 2 ^ 32) : wsub32 a b = a - b := by
  unfold wsub32
  have h32 : (2:Nat) ^ 32 = 4294967296 := by norm_num
  have hb : b < 2 ^ 32 := lt_of_le_of_lt hba ha
  rw [Nat.mod_eq_of_lt ha, Nat.mod_eq_of_lt hb, h32] at *
  omega

/-- C2 (amended).  An `Add` or `Sub` node whose two operands are both
`Constant` nodes with values `c1` and `c2` is replaced by a single `Constant`
whose value is `(c1 + c2) mod 2^64` resp. `(c1 - c2) mod 2^64` (unsigned)
masked to the low `8 * Size` bits.  `AddWithFlags` and `SubWithFlags` nodes
are not constant-folded: with both operands constant and `c2` inside the
add/sub immediate window they are left completely unchanged. -/
theorem addsub_constant_fold (s : IRState) (id : Nat) (n : Node) (c1 c2 : Nat)
    (h : lookupNode s id = some n)
    (hc1 : isValueConstant s (argOf n 0) = some c1)
    (hc2 : isValueConstant s (argOf n 1) = some c2)
    (hsz : n.size = 1 ∨ n.size = 2 ∨ n.size = 4 ∨ n.size = 8) :
    (n.op = .Add →
      constPropNode s id =
        some (replaceWithConstant s id (((c1 + c2) % 2 ^ 64) &&& (2 ^ (8 * n.size) - 1)))) ∧
    (n.op = .Sub →
      constPropNode s id =
        some (replaceWithConstant s id
          (((c1 + (2 ^ 64 - c2 % 2 ^ 64)) % 2 ^ 64) &&& (2 ^ (8 * n.size) - 1)))) ∧
    ((n.op = .AddWithFlags ∨ n.op = .SubWithFlags) → IsImmAddSub c2 = true →
      constPropNode s id = some s) := by
  obtain ⟨op, sz, args⟩ := n
  simp only at hc1 hc2 hsz
  refine ⟨?_, ?_, ?_⟩
  · intro hop
    simp only at hop
    subst hop
    simp only [constPropNode, h]
    simp only [stepAddSub, hc1, hc2]
    rw [addFoldG, getMaskG_eq sz hsz]
    simp [uadd64, U64]
  · intro hop
    simp only at hop
    subst hop
    simp only [constPropNode, h]
    simp only [stepAddSub, hc1, hc2]
    rw [subFoldG, getMaskG_eq sz hsz]
    simp [usub64, U64]
  · intro hop himm
    simp only at hop
    rcases hop with hop | hop <;> subst hop <;>
      simp only [constPropNode, h] <;>
      simp only [stepAddSub, hc1, hc2] <;>
      simp [himm]

/-- C2 counterexample.  An `AddWithFlags` node with both operands constant
(7 and 5, four bytes wide) is left completely unchanged by the pass, whereas
the claim predicts a fold into `Constant 12`. -/
theorem addwithflags_not_folded_counterexample :
    lookupNode addWithFlagsEx 2 = some ⟨.AddWithFlags, 4, [some 0, some 1]⟩ ∧
    isValueConstant addWithFlagsEx (some 0) = some 7 ∧
    isValueConstant addWithFlagsEx (some 1) = some 5 ∧
    constPropNode addWithFlagsEx 2 = some addWithFlagsEx := by
  refine ⟨by decide, by decide, by decide, by decide⟩

/-- Witness for the C2 theorem at scenario S1: `Add.4 (Constant 7) (Constant 5)`
folds to `Constant 12`. -/
theorem addsub_constant_fold_witness :
    constPropNode addFoldEx 2 =
      some (replaceWithConstant addFoldEx 2 (((7 + 5) % 2 ^ 64) &&& (2 ^ (8 * 4) - 1))) :=
  (addsub_constant_fold addFoldEx 2 ⟨.Add, 4, [some 0, some 1]⟩ 7 5 (by decide) (by decide)
    (by decide) (by decide)).1 rfl

/-- C3 (confirmed).  When C1 encounters a `Constant` node `N` with node id `i`
whose value is pooled under representative `(N0, i0)`: if `i - i0 > 500` the
pool entry is overwritten with `(N, i)` and the IR is left unchanged (no uses
are redirected); otherwise every use of `N` at or after the position of `N`
is redirected to `N0` and the pool is unchanged.  If the value is not pooled,
`(N, i)` is inserted into the pool and the IR is left unchanged. -/
theorem constant_pool_step (s : IRState) (ps : PoolState) (id v : Nat) (n : Node)
    (h : lookupNode s id = some n) (hop : n.op = .Constant v) (hid : id < 2 ^ 32) :
    (poolFind ps.constPool v = none →
      poolNode s ps id = (s, ⟨poolSet ps.constPool v ⟨id, id⟩, ps.addressgenConsts⟩)) ∧
    (∀ d, poolFind ps.constPool v = some d → d.nodeID ≤ id →
      ((id - d.nodeID > CONSTANT_POOL_RANGE_LIMIT →
        poolNode s ps id = (s, ⟨poolSet ps.constPool v ⟨id, id⟩, ps.addressgenConsts⟩)) ∧
       (id - d.nodeID ≤ CONSTANT_POOL_RANGE_LIMIT →
        poolNode s ps id = (replaceUsesWithAfter s id d.node (posOf s id), ps)))) := by
  obtain ⟨op, sz, args⟩ := n
  simp only at hop
  subst hop
  constructor
  · intro hpf
    simp only [poolNode, h, hpf]
  · intro d hpf hle
    have hws : wsub32 id d.nodeID = id - d.nodeID := wsub32_eq id d.nodeID hle hid
    constructor
    · intro hgt
      simp only [poolNode, h, hpf, hws]
      rw [if_pos hgt]
    · intro hle2
      simp only [poolNode, h, hpf, hws]
      rw [if_neg (by omega)]

/-- Witness for the C3 theorem: a second `Constant 7` at node id 1, pooled
under representative `(0, 0)` (distance 1 ≤ 500), has its uses at or after
its position redirected to node 0; the pool is unchanged. -/
theorem constant_pool_step_witness :
    poolNode poolRedirectEx ⟨[(7, ⟨0, 0⟩)], []⟩ 1 =
      (replaceUsesWithAfter poolRedirectEx 1 0 (posOf poolRedirectEx 1),
        ⟨[(7, ⟨0, 0⟩)], []⟩) :=
  ((constant_pool_step poolRedirectEx ⟨[(7, ⟨0, 0⟩)], []⟩ 1 7 ⟨.Constant 7, 8, []⟩
      (by decide) (by decide) (by decide)).2 ⟨0, 0⟩ (by decide) (by decide)).2 (by decide)

/-- C6 (amended).  A `Bfe` whose source is itself a `Bfe` with width less
than or equal to the outer width is eliminated: all uses of the outer `Bfe`
are redirected to the source node. -/
theorem bfe_redundant_reextract_elim (s : IRState) (id srcId : Nat) (n m : Node)
    (w w2 l l2 : Nat)
    (h : lookupNode s id = some n) (hop : n.op = .Bfe w l)
    (hsrc : argOf n 0 = some srcId) (hm : lookupNode s srcId = some m)
    (hmop : m.op = .Bfe w2 l2) (hle : w2 ≤ w) :
    constPropNode s id = some (replaceAllUsesWith s id srcId) := by
  obtain ⟨op, sz, args⟩ := n
  simp only at hop hsrc
  subst hop
  simp only [constPropNode, h]
  simp only [stepBfe, hsrc, hm]
  have hd : isBfeAlreadyDone m w = true := by
    simp [isBfeAlreadyDone, hmop, hle]
  simp [hd]

/-- C6 counterexample.  The outer `Bfe` at node 2 has width 4 and its source
(node 1) is a `Bfe` of width 8, so the claim as stated (source width ≥ outer
width) predicts elimination; the pass leaves the node, its operands, and its
uses (node 3) completely unchanged. -/
theorem bfe_width_direction_counterexample :
    lookupNode bfeChainWideSrcEx 2 = some ⟨.Bfe 4 0, 8, [some 1]⟩ ∧
    lookupNode bfeChainWideSrcEx 1 = some ⟨.Bfe 8 0, 8, [some 0]⟩ ∧
    8 ≥ 4 ∧
    constPropNode bfeChainWideSrcEx 2 = some bfeChainWideSrcEx := by
  refine ⟨by decide, by decide, by decide, by decide⟩

/-- Witness for the C6 theorem: a `Bfe` of width 8 over a `Bfe` of width 4
is eliminated in favour of its source node. -/
theorem bfe_redundant_reextract_elim_witness :
    constPropNode bfeChainNarrowSrcEx 2 = some (replaceAllUsesWith bfeChainNarrowSrcEx 2 1) :=
  bfe_redundant_reextract_elim bfeChainNarrowSrcEx 2 1 ⟨.Bfe 8 0, 8, [some 1]⟩
    ⟨.Bfe 4 0, 8, [some 0]⟩ 8 4 0 0 (by decide) (by decide) (by decide) (by decide)
    (by decide) (by decide)

/-- C9 (confirmed).  A `Bfe` with `lsb = 0`, width equal to `8 * Size`, and
size equal to its source node's size, whose source is not a constant, not a
`Bfe` of covered width, and not a zero-extending load, is left completely
unchanged by the constant folder: the disabled full-width elimination branch
performs no rewrite. -/
theorem bfe_fullwidth_conservative (s : IRState) (id srcId : Nat) (n m : Node)
    (h : lookupNode s id = some n) (hop : n.op = .Bfe (8 * n.size) 0)
    (hsrc : argOf n 0 = some srcId)
    (hm : lookupNode s srcId = some m) (hmsz : m.size = n.size)
    (hnc : ∀ v, m.op ≠ .Constant v)
    (hnb : ∀ w2 l2, m.op = .Bfe w2 l2 → ¬ w2 ≤ 8 * n.size)
    (hnl : isZextLoad m.op = false) :
    constPropNode s id = some s := by
  obtain ⟨op, sz, args⟩ := n
  simp only at hop hsrc hmsz hnb
  subst hop
  simp only [constPropNode, h]
  simp only [stepBfe, hsrc, hm]
  have hd : isBfeAlreadyDone m (8 * sz) = false := by
    unfold isBfeAlreadyDone
    cases hmo : m.op
    case Bfe w2 l2 => simpa using hnb w2 l2 hmo
    all_goals rfl
  have hvc : isValueConstant s (some srcId) = none := by
    cases hmo : m.op
    case Constant v => exact absurd hmo (hnc v)
    all_goals simp [isValueConstant, hm, hmo]
  have hfull : ((sz == m.size) && ((8 * sz) == sz * 8) && ((0:Nat) == 0)) = true := by
    simp [hmsz, Nat.mul_comm]
  simp only [hd, Bool.false_eq_true, if_false, hnl, Bool.and_false, hvc, hfull]
  simp

/-- Witness for the C9 theorem: `Bfe.4 32 0` over a non-constant non-load
source of size 4 is untouched. -/
theorem bfe_fullwidth_conservative_witness :
    constPropNode bfeFullWidthEx 1 = some bfeFullWidthEx :=
  bfe_fullwidth_conservative bfeFullWidthEx 1 0 ⟨.Bfe 32 0, 4, [some 0]⟩ ⟨.Other, 4, []⟩
    (by decide) (by decide) (by decide) (by decide) (by decide)
    (fun v h => OpKind.noConfusion h) (fun w2 l2 h => OpKind.noConfusion h) (by decide)

theorem nextId_replaceNodeArgument (s : IRState) (id idx : Nat) (e : Option Nat) :
    (replaceNodeArgument s id idx e).nextId = s.nextId := by
  unfold replaceNodeArgument
  cases lookupNode s id <;> rfl

/-- C4 (confirmed).  For a `LoadMem` or `StoreMem` whose address operand is a
`Constant` with value `A` and whose offset operand is the invalid sentinel:
the address-gen map contains a recorded node with constant value `B` such
that `(A - B) < 65536` in unsigned 64-bit arithmetic if and only if the scan
finds a hit; when the first hit (in map key order) is `(b, B)`, the memory op
is rewritten to use node `b` as its address and a freshly created
`Constant(A - B)` (emitted before the op) as its offset, with the maps left
unchanged; when there is no hit, the IR is unchanged and the current address
node is recorded under value `A`. -/
theorem addressgen_coalesce_step (s : IRState) (ps : PoolState) (id A ea : Nat) (n : Node)
    (hf : wfFresh s)
    (h : lookupNode s id = some n)
    (hmem : (∃ ot, n.op = .LoadMem ot) ∨ (∃ ot, n.op = .StoreMem ot))
    (haddr : argOf n (addrIndexOf n.op) = some ea)
    (hA : isValueConstant s (some ea) = some A)
    (hoff : argOf n (offsetIndexOf n.op) = none) :
    (agenFind ps.addressgenConsts A = none ↔
      ∀ e ∈ ps.addressgenConsts, ¬ usub64 A e.2 < 65536) ∧
    (agenFind ps.addressgenConsts A = none →
      poolNode s ps id = (s, ⟨ps.constPool, agenInsert ps.addressgenConsts ea A⟩)) ∧
    (∀ b B, agenFind ps.addressgenConsts A = some (b, B) →
      ∃ t, poolNode s ps id = (t, ps) ∧
        lookupNode t id = some ⟨n.op, n.size,
          setIdx (setIdx n.args (addrIndexOf n.op) (some b)) (offsetIndexOf n.op)
            (some s.nextId)⟩ ∧
        lookupNode t s.nextId = some ⟨.Constant (usub64 A B), 8, []⟩) := by
  refine ⟨by simp [agenFind, List.find?_eq_none], ?_, ?_⟩
  · intro hfind
    obtain ⟨op, sz, args⟩ := n
    rcases hmem with ⟨ot, hop⟩ | ⟨ot, hop⟩ <;> simp only at hop <;> subst hop <;>
      simp only [addrIndexOf, offsetIndexOf] at haddr hoff <;>
      simp only [poolNode, h, addrIndexOf, offsetIndexOf, haddr, hoff, hA, hfind]
  · intro b B hfind
    obtain ⟨op, sz, args⟩ := n
    have hlt : id < s.nextId := lookupNode_lt_nextId s id _ hf h
    rcases hmem with ⟨ot, hop⟩ | ⟨ot, hop⟩ <;> simp only at hop <;> subst hop
    · simp only [addrIndexOf, offsetIndexOf] at haddr hoff ⊢
      have hf1 : wfFresh (replaceNodeArgument s id 0 (some b)) :=
        wfFresh_replaceNodeArgument s id 0 (some b) hf
      have h1 : lookupNode (replaceNodeArgument s id 0 (some b)) id =
          some ⟨.LoadMem ot, sz, setIdx args 0 (some b)⟩ :=
        lookupNode_replaceNodeArgument_self s id 0 (some b) _ h
      have hn1 : (replaceNodeArgument s id 0 (some b)).nextId = s.nextId :=
        nextId_replaceNodeArgument s id 0 (some b)
      have hr2 : (emitBefore (replaceNodeArgument s id 0 (some b)) id
          ⟨.Constant (usub64 A B), 8, []⟩).2 = s.nextId := hn1
      have hle1 : lookupNode (emitBefore (replaceNodeArgument s id 0 (some b)) id
            ⟨.Constant (usub64 A B), 8, []⟩).1 id =
          some ⟨.LoadMem ot, sz, setIdx args 0 (some b)⟩ :=
        lookupNode_emitBefore_old _ id _ id _ hf1 h1
      have hlen : lookupNode (emitBefore (replaceNodeArgument s id 0 (some b)) id
            ⟨.Constant (usub64 A B), 8, []⟩).1 s.nextId =
          some ⟨.Constant (usub64 A B), 8, []⟩ := by
        have := lookupNode_emitBefore_new (replaceNodeArgument s id 0 (some b)) id
          ⟨.Constant (usub64 A B), 8, []⟩ hf1
        rwa [hn1] at this
      refine ⟨replaceNodeArgument (emitBefore (replaceNodeArgument s id 0 (some b)) id
          ⟨.Constant (usub64 A B), 8, []⟩).1 id 1 (some s.nextId), ?_, ?_, ?_⟩
      · simp only [poolNode, h, addrIndexOf, offsetIndexOf, haddr, hoff, hA, hfind]
        rw [hr2]
      · simpa using lookupNode_replaceNodeArgument_self _ id 1 (some s.nextId) _ hle1
      · rw [lookupNode_replaceNodeArgument_ne _ id 1 s.nextId (some s.nextId) (by omega)]
        exact hlen
    · simp only [addrIndexOf, offsetIndexOf] at haddr hoff ⊢
      have hf1 : wfFresh (replaceNodeArgument s id 0 (some b)) :=
        wfFresh_replaceNodeArgument s id 0 (some b) hf
      have h1 : lookupNode (replaceNodeArgument s id 0 (some b)) id =
          some ⟨.StoreMem ot, sz, setIdx args 0 (some b)⟩ :=
        lookupNode_replaceNodeArgument_self s id 0 (some b) _ h
      have hn1 : (replaceNodeArgument s id 0 (some b)).nextId = s.nextId :=
        nextId_replaceNodeArgument s id 0 (some b)
      have hr2 : (emitBefore (replaceNodeArgument s id 0 (some b)) id
          ⟨.Constant (usub64 A B), 8, []⟩).2 = s.nextId := hn1
      have hle1 : lookupNode (emitBefore (replaceNodeArgument s id 0 (some b)) id
            ⟨.Constant (usub64 A B), 8, []⟩).1 id =
          some ⟨.StoreMem ot, sz, setIdx args 0 (some b)⟩ :=
        lookupNode_emitBefore_old _ id _ id _ hf1 h1
      have hlen : lookupNode (emitBefore (replaceNodeArgument s id 0 (some b)) id
            ⟨.Constant (usub64 A B), 8, []⟩).1 s.nextId =
          some ⟨.Constant (usub64 A B), 8, []⟩ := by
        have := lookupNode_emitBefore_new (replaceNodeArgument s id 0 (some b)) id
          ⟨.Constant (usub64 A B), 8, []⟩ hf1
        rwa [hn1] at this
      refine ⟨replaceNodeArgument (emitBefore (replaceNodeArgument s id 0 (some b)) id
          ⟨.Constant (usub64 A B), 8, []⟩).1 id 2 (some s.nextId), ?_, ?_, ?_⟩
      · simp only [poolNode, h, addrIndexOf, offsetIndexOf, haddr, hoff, hA, hfind]
        rw [hr2]
      · simpa using lookupNode_replaceNodeArgument_self _ id 2 (some s.nextId) _ hle1
      · rw [lookupNode_replaceNodeArgument_ne _ id 2 s.nextId (some s.nextId) (by omega)]
        exact hlen


/-- Witness for the C4 theorem at scenario S5: the second `LoadMem` (address
0x1040) is rewritten against the recorded base 0x1000 into base node 0 plus a
fresh `Constant 0x40` offset. -/
theorem addressgen_coalesce_step_witness :
    ∃ t, poolNode agenEx ⟨[], [(0, 4096)]⟩ 3 = (t, ⟨[], [(0, 4096)]⟩) ∧
      lookupNode t 3 =
        some ⟨.LoadMem .SXTX, 8, setIdx (setIdx [some 2, none] 0 (some 0)) 1 (some 4)⟩ ∧
      lookupNode t 4 = some ⟨.Constant (usub64 4160 4096), 8, []⟩ :=
  (addressgen_coalesce_step agenEx ⟨[], [(0, 4096)]⟩ 3 4160 2
    ⟨.LoadMem .SXTX, 8, [some 2, none]⟩ (by decide) (by decide)
    (Or.inl ⟨.SXTX, rfl⟩) (by decide) (by decide) (by decide)).2.2 0 4096 (by decide)

/-- C5 (confirmed).  For every `Add`, `Sub`, `AddWithFlags`, or
`SubWithFlags` node whose right operand is a `Constant` `c2` with
`IsImmAddSub c2` false but `IsImmAddSub (-c2)` true, and for which the
both-constant fold does not apply, the opcode is flipped (`Add` to `Sub`,
`Sub` to `Add`, and likewise for the flags variants, per `flipAddSub`) and
the right operand is replaced by a newly created `Constant (-c2)` emitted
before the node. -/
theorem addsub_negation_flip (s : IRState) (id : Nat) (n : Node) (c2 : Nat)
    (hf : wfFresh s)
    (h : lookupNode s id = some n)
    (htag : n.op = .Add ∨ n.op = .Sub ∨ n.op = .AddWithFlags ∨ n.op = .SubWithFlags)
    (hc2 : isValueConstant s (argOf n 1) = some c2)
    (hni : IsImmAddSub c2 = false) (hyi : IsImmAddSub (uneg64 c2) = true)
    (hnofold : (n.op = .Add ∨ n.op = .Sub) → isValueConstant s (argOf n 0) = none) :
    ∃ t, constPropNode s id = some t ∧
      t = replaceNodeArgument
            (emitBefore (setNode s id ⟨flipAddSub n.op, n.size, n.args⟩) id
              ⟨.Constant (uneg64 c2), 8, []⟩).1 id 1 (some s.nextId) ∧
      lookupNode t id = some ⟨flipAddSub n.op, n.size, setIdx n.args 1 (some s.nextId)⟩ ∧
      lookupNode t s.nextId = some ⟨.Constant (uneg64 c2), 8, []⟩ := by
  have hlt : id < s.nextId := lookupNode_lt_nextId s id n hf h
  have hstep : constPropNode s id =
      some (replaceNodeArgument
        (emitBefore (setNode s id ⟨flipAddSub n.op, n.size, n.args⟩) id
          ⟨.Constant (uneg64 c2), 8, []⟩).1 id 1 (some s.nextId)) := by
    obtain ⟨op, sz, args⟩ := n
    simp only at hc2 hnofold
    rcases htag with hop | hop | hop | hop <;> simp only at hop <;> subst hop
    · have ha0 := hnofold (Or.inl rfl)
      simp only [constPropNode, h, stepAddSub, ha0, hc2]
      simp only [hni, hyi]
      rfl
    · have ha0 := hnofold (Or.inr rfl)
      simp only [constPropNode, h, stepAddSub, ha0, hc2]
      simp only [hni, hyi]
      rfl
    · rcases ha0 : isValueConstant s (argOf ⟨.AddWithFlags, sz, args⟩ 0) with _ | c1 <;>
        simp only [constPropNode, h, stepAddSub, ha0, hc2] <;> simp only [hni, hyi] <;> rfl
    · rcases ha0 : isValueConstant s (argOf ⟨.SubWithFlags, sz, args⟩ 0) with _ | c1 <;>
        simp only [constPropNode, h, stepAddSub, ha0, hc2] <;> simp only [hni, hyi] <;> rfl
  set flipped : Node := ⟨flipAddSub n.op, n.size, n.args⟩ with hflip
  set s0 := setNode s id flipped with hs0
  set e := emitBefore s0 id ⟨.Constant (uneg64 c2), 8, []⟩ with he
  have hf0 : wfFresh s0 := wfFresh_setNode s id flipped hf
  have hl0 : lookupNode s0 id = some flipped := lookupNode_setNode_self s id n flipped h
  have hnext : s0.nextId = s.nextId := rfl
  have hle1 : lookupNode e.1 id = some flipped :=
    lookupNode_emitBefore_old s0 id _ id flipped hf0 hl0
  have hlen : lookupNode e.1 s.nextId = some ⟨.Constant (uneg64 c2), 8, []⟩ := by
    have := lookupNode_emitBefore_new s0 id ⟨.Constant (uneg64 c2), 8, []⟩ hf0
    rwa [hnext] at this
  refine ⟨_, hstep, rfl, ?_, ?_⟩
  · exact lookupNode_replaceNodeArgument_self e.1 id 1 (some s.nextId) flipped hle1
  · rw [lookupNode_replaceNodeArgument_ne e.1 id 1 s.nextId (some s.nextId) (by omega)]
    exact hlen


/-- Witness for the C5 theorem at scenario S2: `Add.8 x (Constant
0xFFFFFFFFFFFFF000)` is flipped to `Sub.8` with a fresh `Constant 0x1000`
right operand emitted before the node. -/
theorem addsub_negation_flip_witness :
    ∃ t, constPropNode negFlipEx 2 = some t ∧
      t = replaceNodeArgument (emitBefore (setNode negFlipEx 2
            ⟨flipAddSub .Add, 8, [some 0, some 1]⟩) 2
            ⟨.Constant (uneg64 (2 ^ 64 - 4096)), 8, []⟩).1 2 1 (some 3) ∧
      lookupNode t 2 = some ⟨flipAddSub .Add, 8, setIdx [some 0, some 1] 1 (some 3)⟩ ∧
      lookupNode t 3 = some ⟨.Constant (uneg64 (2 ^ 64 - 4096)), 8, []⟩ :=
  addsub_negation_flip negFlipEx 2 ⟨.Add, 8, [some 0, some 1]⟩ (2 ^ 64 - 4096)
    (by decide) (by decide) (Or.inl rfl) (by decide) (by decide) (by decide)
    (fun _ => by decide)

theorem and_mask_lt (x k : Nat) : x &&& (2 ^ k - 1) < 2 ^ k := by
  have h1 : x &&& (2 ^ k - 1) ≤ 2 ^ k - 1 := Nat.and_le_right
  have h2 : 0 < 2 ^ k := Nat.pos_pow_of_pos k (by norm_num)
  omega

theorem destMask_eq (sz : Nat) (hsz : sz = 1 ∨ sz = 2 ∨ sz = 4 ∨ sz = 8) :
    (if sz * 8 == 64 then some (U64 - 1) else (shlG 1 (sz * 8)).map (fun m => m - 1)) =
      some (2 ^ (8 * sz) - 1) := by
  rcases hsz with h | h | h | h <;> subst h <;> decide

/-- C1 (amended).  The constant folds for `Add`, `Sub`, `SubShift`, `And`,
`Lshl`, `Lshr`, `Mul`, and `Sbfe` mask their computed result to the
destination width: whenever constant propagation rewrites such a node into a
`Constant`, the stored value has no bits at or above bit `8 * Size`.  (The
folds for `Or`, `OrLshl`, `OrLshr`, `Xor`, `Neg`, `Bfe`, and `Bfi` store the
unmasked 64-bit result; see the counterexample.) -/
theorem masked_folds_width_bounded (s t : IRState) (id : Nat) (n m : Node) (v : Nat)
    (hf : wfFresh s)
    (h : lookupNode s id = some n) (ht : maskedFoldTag n.op = true)
    (hsz : n.size = 1 ∨ n.size = 2 ∨ n.size = 4 ∨ n.size = 8)
    (hstep : constPropNode s id = some t)
    (h2 : lookupNode t id = some m) (hm : m.op = .Constant v) :
    v < 2 ^ (8 * n.size) := by
  obtain ⟨op, sz, args⟩ := n
  simp only [constPropNode, h] at hstep
  cases op
  case Add =>
    show v < 2 ^ (8 * sz)
    simp only at hsz
    simp only [stepAddSub] at hstep
    rcases hc1 : isValueConstant s (argOf ⟨.Add, sz, args⟩ 0) with _ | c1 <;>
      rcases hc2 : isValueConstant s (argOf ⟨.Add, sz, args⟩ 1) with _ | c2 <;>
      simp only [hc1, hc2] at hstep
    · rw [← Option.some_inj.mp hstep, h] at h2
      cases Option.some_inj.mp h2
      exact absurd hm (by simp)
    · by_cases hcnd : (!IsImmAddSub c2 && IsImmAddSub (uneg64 c2)) = true
      · rw [if_pos hcnd] at hstep
        rw [← Option.some_inj.mp hstep] at h2
        have hf0 : wfFresh (setNode s id ⟨flipAddSub .Add, sz, args⟩) :=
          wfFresh_setNode s id _ hf
        have hl0 : lookupNode (setNode s id ⟨flipAddSub .Add, sz, args⟩) id =
            some ⟨flipAddSub .Add, sz, args⟩ := lookupNode_setNode_self s id _ _ h
        have hle : lookupNode (emitBefore (setNode s id ⟨flipAddSub .Add, sz, args⟩) id
            ⟨.Constant (uneg64 c2), 8, []⟩).1 id = some ⟨flipAddSub .Add, sz, args⟩ :=
          lookupNode_emitBefore_old _ id _ id _ hf0 hl0
        rw [lookupNode_replaceNodeArgument_self _ id 1 _ _ hle] at h2
        cases Option.some_inj.mp h2
        exact absurd hm (by simp [flipAddSub])
      · rw [if_neg hcnd] at hstep
        rw [← Option.some_inj.mp hstep, h] at h2
        cases Option.some_inj.mp h2
        exact absurd hm (by simp)
    · rw [← Option.some_inj.mp hstep, h] at h2
      cases Option.some_inj.mp h2
      exact absurd hm (by simp)
    · rcases Option.map_eq_some'.mp hstep with ⟨w, hw, hrep⟩
      rw [addFoldG, getMaskG_eq sz hsz] at hw
      simp only [Option.map_some', Option.some_inj] at hw
      rw [← hrep, lookupNode_replaceWithConstant s id _ w h] at h2
      cases Option.some_inj.mp h2
      simp only at hm
      cases hm
      rw [← hw]
      exact and_mask_lt _ _
  case Sub =>
    show v < 2 ^ (8 * sz)
    simp only at hsz
    simp only [stepAddSub] at hstep
    rcases hc1 : isValueConstant s (argOf ⟨.Sub, sz, args⟩ 0) with _ | c1 <;>
      rcases hc2 : isValueConstant s (argOf ⟨.Sub, sz, args⟩ 1) with _ | c2 <;>
      simp only [hc1, hc2] at hstep
    · rw [← Option.some_inj.mp hstep, h] at h2
      cases Option.some_inj.mp h2
      exact absurd hm (by simp)
    · by_cases hcnd : (!IsImmAddSub c2 && IsImmAddSub (uneg64 c2)) = true
      · rw [if_pos hcnd] at hstep
        rw [← Option.some_inj.mp hstep] at h2
        have hf0 : wfFresh (setNode s id ⟨flipAddSub .Sub, sz, args⟩) :=
          wfFresh_setNode s id _ hf
        have hl0 : lookupNode (setNode s id ⟨flipAddSub .Sub, sz, args⟩) id =
            some ⟨flipAddSub .Sub, sz, args⟩ := lookupNode_setNode_self s id _ _ h
        have hle : lookupNode (emitBefore (setNode s id ⟨flipAddSub .Sub, sz, args⟩) id
            ⟨.Constant (uneg64 c2), 8, []⟩).1 id = some ⟨flipAddSub .Sub, sz, args⟩ :=
          lookupNode_emitBefore_old _ id _ id _ hf0 hl0
        rw [lookupNode_replaceNodeArgument_self _ id 1 _ _ hle] at h2
        cases Option.some_inj.mp h2
        exact absurd hm (by simp [flipAddSub])
      · rw [if_neg hcnd] at hstep
        rw [← Option.some_inj.mp hstep, h] at h2
        cases Option.some_inj.mp h2
        exact absurd hm (by simp)
    · rw [← Option.some_inj.mp hstep, h] at h2
      cases Option.some_inj.mp h2
      exact absurd hm (by simp)
    · rcases Option.map_eq_some'.mp hstep with ⟨w, hw, hrep⟩
      rw [subFoldG, getMaskG_eq sz hsz] at hw
      simp only [Option.map_some', Option.some_inj] at hw
      rw [← hrep, lookupNode_replaceWithConstant s id _ w h] at h2
      cases Option.some_inj.mp h2
      simp only at hm
      cases hm
      rw [← hw]
      exact and_mask_lt _ _
  case SubShift sty amt =>
    show v < 2 ^ (8 * sz)
    simp only at hsz
    simp only [stepSubShift] at hstep
    rcases hc1 : isValueConstant s (argOf ⟨.SubShift sty amt, sz, args⟩ 0) with _ | c1 <;>
      rcases hc2 : isValueConstant s (argOf ⟨.SubShift sty amt, sz, args⟩ 1) with _ | c2 <;>
      cases sty <;> simp only [hc1, hc2] at hstep <;>
      first
      | (rw [← Option.some_inj.mp hstep, h] at h2
         cases Option.some_inj.mp h2
         exact absurd hm (by simp))
      | skip
    rcases Option.map_eq_some'.mp hstep with ⟨w, hw, hrep⟩
    simp only [subShiftFoldG] at hw
    rcases hsh : shlG c2 amt with _ | sh <;> simp only [hsh] at hw
    · exact Option.noConfusion hw
    simp only [getMaskG_eq sz hsz, Option.some_inj] at hw
    rw [← hrep, lookupNode_replaceWithConstant s id _ w h] at h2
    cases Option.some_inj.mp h2
    simp only at hm
    cases hm
    rw [← hw]
    exact and_mask_lt _ _
  case And =>
    show v < 2 ^ (8 * sz)
    simp only at hsz
    simp only [stepAnd] at hstep
    rcases hc1 : isValueConstant s (argOf ⟨.And, sz, args⟩ 0) with _ | c1 <;>
      rcases hc2 : isValueConstant s (argOf ⟨.And, sz, args⟩ 1) with _ | c2 <;>
      simp only [hc1, hc2] at hstep
    case some.some =>
      rcases Option.map_eq_some'.mp hstep with ⟨w, hw, hrep⟩
      rw [andFoldG, getMaskG_eq sz hsz] at hw
      simp only [Option.map_some', Option.some_inj] at hw
      rw [← hrep, lookupNode_replaceWithConstant s id _ w h] at h2
      cases Option.some_inj.mp h2
      simp only at hm
      cases hm
      rw [← hw]
      exact and_mask_lt _ _
    all_goals {
      by_cases heq : (argOf ⟨OpKind.And, sz, args⟩ 0 == argOf ⟨OpKind.And, sz, args⟩ 1) = true
      · rw [if_pos heq] at hstep
        rcases ha : argOf ⟨OpKind.And, sz, args⟩ 0 with _ | a <;> simp only [ha] at hstep
        · exact Option.noConfusion hstep
        · rw [← Option.some_inj.mp hstep, lookupNode_rauw, h] at h2
          simp only [Option.map_some'] at h2
          cases Option.some_inj.mp h2
          exact absurd hm (by simp)
      · rw [if_neg heq] at hstep
        rw [← Option.some_inj.mp hstep, h] at h2
        cases Option.some_inj.mp h2
        exact absurd hm (by simp)
    }
  case Lshl =>
    show v < 2 ^ (8 * sz)
    simp only at hsz
    simp only [stepLshl] at hstep
    rcases hc1 : isValueConstant s (argOf ⟨.Lshl, sz, args⟩ 0) with _ | c1 <;>
      rcases hc2 : isValueConstant s (argOf ⟨.Lshl, sz, args⟩ 1) with _ | c2 <;>
      simp only [hc1, hc2] at hstep
    case some.some =>
      rcases Option.map_eq_some'.mp hstep with ⟨w, hw, hrep⟩
      rw [lshlFoldG, getMaskG_eq sz hsz] at hw
      simp only [Option.map_some', Option.some_inj] at hw
      rw [← hrep, lookupNode_replaceWithConstant s id _ w h] at h2
      cases Option.some_inj.mp h2
      simp only at hm
      cases hm
      rw [← hw]
      exact and_mask_lt _ _
    case none.none =>
      rw [← Option.some_inj.mp hstep, h] at h2
      cases Option.some_inj.mp h2
      exact absurd hm (by simp)
    case some.none =>
      rw [← Option.some_inj.mp hstep, h] at h2
      cases Option.some_inj.mp h2
      exact absurd hm (by simp)
    case none.some =>
      cases c2 with
      | zero =>
        rcases ha : argOf ⟨OpKind.Lshl, sz, args⟩ 0 with _ | a <;> simp only [ha] at hstep
        · exact Option.noConfusion hstep
        · rw [← Option.some_inj.mp hstep, lookupNode_rauw, h] at h2
          simp only [Option.map_some'] at h2
          cases Option.some_inj.mp h2
          exact absurd hm (by simp)
      | succ c2' =>
        rw [← Option.some_inj.mp hstep, h] at h2
        cases Option.some_inj.mp h2
        exact absurd hm (by simp)
  case Lshr =>
    show v < 2 ^ (8 * sz)
    simp only at hsz
    simp only [stepLshr] at hstep
    rcases hc1 : isValueConstant s (argOf ⟨.Lshr, sz, args⟩ 0) with _ | c1 <;>
      rcases hc2 : isValueConstant s (argOf ⟨.Lshr, sz, args⟩ 1) with _ | c2 <;>
      simp only [hc1, hc2] at hstep
    case some.some =>
      rcases Option.map_eq_some'.mp hstep with ⟨w, hw, hrep⟩
      rw [lshrFoldG, getMaskG_eq sz hsz] at hw
      simp only [Option.map_some', Option.some_inj] at hw
      rw [← hrep, lookupNode_replaceWithConstant s id _ w h] at h2
      cases Option.some_inj.mp h2
      simp only at hm
      cases hm
      rw [← hw]
      exact and_mask_lt _ _
    case none.none =>
      rw [← Option.some_inj.mp hstep, h] at h2
      cases Option.some_inj.mp h2
      exact absurd hm (by simp)
    case some.none =>
      rw [← Option.some_inj.mp hstep, h] at h2
      cases Option.some_inj.mp h2
      exact absurd hm (by simp)
    case none.some =>
      cases c2 with
      | zero =>
        rcases ha : argOf ⟨OpKind.Lshr, sz, args⟩ 0 with _ | a <;> simp only [ha] at hstep
        · exact Option.noConfusion hstep
        · rw [← Option.some_inj.mp hstep, lookupNode_rauw, h] at h2
          simp only [Option.map_some'] at h2
          cases Option.some_inj.mp h2
          exact absurd hm (by simp)
      | succ c2' =>
        rw [← Option.some_inj.mp hstep, h] at h2
        cases Option.some_inj.mp h2
        exact absurd hm (by simp)
  case Mul =>
    show v < 2 ^ (8 * sz)
    simp only at hsz
    simp only [stepMul] at hstep
    rcases hc1 : isValueConstant s (argOf ⟨.Mul, sz, args⟩ 0) with _ | c1 <;>
      rcases hc2 : isValueConstant s (argOf ⟨.Mul, sz, args⟩ 1) with _ | c2 <;>
      simp only [hc1, hc2] at hstep
    case some.some =>
      rcases Option.map_eq_some'.mp hstep with ⟨w, hw, hrep⟩
      rw [mulFoldG, getMaskG_eq sz hsz] at hw
      simp only [Option.map_some', Option.some_inj] at hw
      rw [← hrep, lookupNode_replaceWithConstant s id _ w h] at h2
      cases Option.some_inj.mp h2
      simp only at hm
      cases hm
      rw [← hw]
      exact and_mask_lt _ _
    case none.none =>
      rw [← Option.some_inj.mp hstep, h] at h2
      cases Option.some_inj.mp h2
      exact absurd hm (by simp)
    case some.none =>
      rw [← Option.some_inj.mp hstep, h] at h2
      cases Option.some_inj.mp h2
      exact absurd hm (by simp)
    case none.some =>
      by_cases hpc : (popcount64 c2 == 1) = true
      · rw [if_pos hpc] at hstep
        by_cases hsz48 : ((sz == 4) || (sz == 8)) = true
        · rw [if_pos hsz48] at hstep
          rcases ha : argOf ⟨OpKind.Mul, sz, args⟩ 0 with _ | a <;> simp only [ha] at hstep
          · exact Option.noConfusion hstep
          · have hf1 : wfFresh (emitAfter s id ⟨.Constant (ctz64 c2), 8, []⟩).1 :=
              wfFresh_emitAfter s id _ hf
            have hl1 : lookupNode (emitAfter s id ⟨.Constant (ctz64 c2), 8, []⟩).1 id =
                some ⟨.Mul, sz, args⟩ := lookupNode_emitAfter_old s id _ id _ hf h
            have hl2 : lookupNode (emitAfter (emitAfter s id ⟨.Constant (ctz64 c2), 8, []⟩).1
                (emitAfter s id ⟨.Constant (ctz64 c2), 8, []⟩).2
                ⟨.Lshl, sz, [some a, some (emitAfter s id ⟨.Constant (ctz64 c2), 8, []⟩).2]⟩).1
                id = some ⟨.Mul, sz, args⟩ :=
              lookupNode_emitAfter_old _ _ _ id _ hf1 hl1
            rw [← Option.some_inj.mp hstep, lookupNode_rauw, hl2] at h2
            simp only [Option.map_some'] at h2
            cases Option.some_inj.mp h2
            exact absurd hm (by simp)
        · rw [if_neg hsz48] at hstep
          rw [← Option.some_inj.mp hstep, h] at h2
          cases Option.some_inj.mp h2
          exact absurd hm (by simp)
      · rw [if_neg hpc] at hstep
        rw [← Option.some_inj.mp hstep, h] at h2
        cases Option.some_inj.mp h2
        exact absurd hm (by simp)
  case Sbfe wd l =>
    show v < 2 ^ (8 * sz)
    simp only at hsz
    simp only [stepSbfe] at hstep
    rcases hc : isValueConstant s (argOf ⟨.Sbfe wd l, sz, args⟩ 0) with _ | c <;>
      simp only [hc] at hstep
    · rw [← Option.some_inj.mp hstep, h] at h2
      cases Option.some_inj.mp h2
      exact absurd hm (by simp)
    · rcases Option.map_eq_some'.mp hstep with ⟨wv, hw, hrep⟩
      simp only [sbfeFoldG] at hw
      rcases hsm0 : sourceMaskG wd with _ | sm0 <;> simp only [hsm0] at hw
      · exact Option.noConfusion hw
      simp only [destMask_eq sz hsz] at hw
      rcases hsm : shlG sm0 l with _ | sm <;> simp only [hsm] at hw
      · exact Option.noConfusion hw
      rcases hx : shrG (c &&& sm) l with _ | x <;> simp only [hx] at hw
      · exact Option.noConfusion hw
      rcases hy : shlG x (64 - wd) with _ | y <;> simp only [hy] at hw
      · exact Option.noConfusion hw
      rcases hz : asrG y (64 - wd) with _ | z <;> simp only [hz] at hw
      · exact Option.noConfusion hw
      simp only [Option.some_inj] at hw
      rw [← hrep, lookupNode_replaceWithConstant s id _ wv h] at h2
      cases Option.some_inj.mp h2
      simp only at hm
      cases hm
      rw [← hw]
      exact and_mask_lt _ _
  all_goals simp [maskedFoldTag] at ht


/-- C1 counterexample.  Folding a four-byte `Neg` of `Constant 1` stores
`2^64 - 1`, which has bits at and above bit 32 set: the `Neg` fold (like the
`Or`, `Xor`, `OrLshl`, `OrLshr`, `Bfe`, and `Bfi` folds) does not mask the
result to the destination width. -/
theorem neg_fold_unmasked_counterexample :
    constPropNode negFoldEx 1 =
      some ⟨[(0, ⟨.Constant 1, 8, []⟩), (1, ⟨.Constant (2 ^ 64 - 1), 4, []⟩)], 2⟩ ∧
    ¬ ((2 ^ 64 - 1 : Nat) < 2 ^ (8 * 4)) := by
  refine ⟨by decide, by decide⟩

/-- Witness for the C1 theorem: the one-byte `And` fold of 300 and 100 stores
36, which is below `2 ^ 8`. -/
theorem masked_folds_width_bounded_witness :
    constPropNode andFoldEx 2 = some (replaceWithConstant andFoldEx 2 36) ∧
    (36 : Nat) < 2 ^ (8 * 1) :=
  ⟨by decide,
   masked_folds_width_bounded andFoldEx (replaceWithConstant andFoldEx 2 36) 2
     ⟨.And, 1, [some 0, some 1]⟩ ⟨.Constant 36, 1, []⟩ 36 (by decide) (by decide)
     (by decide) (by decide) (by decide) (by decide) (by decide)⟩

theorem sourceMaskG_isSome (width : Nat) (hw : width ≤ 64) :
    (sourceMaskG width).isSome = true := by
  by_cases h64 : width = 64
  · simp [sourceMaskG, h64]
  · have h63 : width ≤ 63 := by omega
    simp [sourceMaskG, h64, shlG, h63]

/-- C10 (amended).  Every shift performed during constant folding uses an
amount in [0, 63], provided: the destination byte size is in {1, 2, 4, 8}
wherever the fold applies `getMask` or the destination mask; for `Bfe`,
`Sbfe`, and `Bfi` folds the `Width` is at most 64 and the `lsb` at most 63,
with `Width` at least 1 for the `Sbfe` sign-extension shifts; for `OrLshl`
and `OrLshr` the `BitShift` is at most 63; and for `SubShift` the
`ShiftAmount` is at most 63.  Under these preconditions no fold computation
reaches the guarded-shift error branch.  (The preconditions of the original
claim alone are not sufficient; see the counterexample.) -/
theorem fold_shift_amounts_defined (size width lsb amt bitShift c c1 c2 : Nat)
    (hsize : size = 1 ∨ size = 2 ∨ size = 4 ∨ size = 8)
    (hw1 : 1 ≤ width) (hw64 : width ≤ 64) (hlsb : lsb ≤ 63) (hamt : amt ≤ 63)
    (hbs : bitShift ≤ 63) :
    (getMaskG size).isSome = true ∧
    (addFoldG size c1 c2).isSome = true ∧ (subFoldG size c1 c2).isSome = true ∧
    (subShiftFoldG size amt c1 c2).isSome = true ∧ (andFoldG size c1 c2).isSome = true ∧
    (orlshlFoldG bitShift c1 c2).isSome = true ∧ (orlshrFoldG bitShift c1 c2).isSome = true ∧
    (lshlFoldG size c1 c2).isSome = true ∧ (lshrFoldG size c1 c2).isSome = true ∧
    (bfeFoldG width lsb c).isSome = true ∧ (sbfeFoldG size width lsb c).isSome = true ∧
    (bfiFoldG width lsb c1 c2).isSome = true ∧ (bfiMaskG width lsb).isSome = true ∧
    (hasConsecutiveBitsG c width).isSome = true ∧ (mulFoldG size c1 c2).isSome = true := by
  have hmask := getMaskG_eq size hsize
  have hsm := sourceMaskG_isSome width hw64
  rcases Option.isSome_iff_exists.mp hsm with ⟨sm, hsme⟩
  have hsw : 64 - width ≤ 63 := by omega
  have hw0 : (width == 0) = false := by
    simp only [beq_eq_false_iff_ne]
    omega
  have hwm1 : width - 1 ≤ 63 := by omega
  refine ⟨by simp [hmask], by simp [addFoldG, hmask], by simp [subFoldG, hmask],
    by simp [subShiftFoldG, shlG, hamt, hmask], by simp [andFoldG, hmask],
    by simp [orlshlFoldG, shlG, hbs], by simp [orlshrFoldG, shrG, hbs],
    by simp [lshlFoldG, hmask], by simp [lshrFoldG, hmask],
    by simp [bfeFoldG, hsme, shlG, shrG, hlsb],
    ?_,
    by simp [bfiFoldG, hsme, shlG, hlsb],
    by simp [bfiMaskG, hsme, shlG, hlsb],
    by simp [hasConsecutiveBitsG, hw0, shlG, hwm1],
    by simp [mulFoldG, hmask]⟩
  rcases hsize with h | h | h | h <;> subst h <;>
    simp [sbfeFoldG, hsme, shlG, shrG, asrG, hlsb, hsw]


/-- C10 counterexample.  An `Sbfe` node of size 8 (in {1,2,4,8}) and width 1
(at least 1), but with lsb 200, satisfies all preconditions stated in the
claim, yet folding it reaches the guarded-shift error branch: the constant
propagation step returns the error value. -/
theorem sbfe_large_lsb_shift_counterexample :
    ((8:Nat) = 1 ∨ (8:Nat) = 2 ∨ (8:Nat) = 4 ∨ (8:Nat) = 8) ∧ (1:Nat) ≥ 1 ∧
    constPropNode sbfeLargeLsbEx 1 = none := by
  refine ⟨by decide, by decide, by decide⟩

/-- Witness for the C10 theorem at size 4, width 8, lsb 3, shift amount 5,
bit shift 7. -/
theorem fold_shift_amounts_defined_witness :
    (getMaskG 4).isSome = true ∧
    (addFoldG 4 7 5).isSome = true ∧ (subFoldG 4 7 5).isSome = true ∧
    (subShiftFoldG 4 5 7 5).isSome = true ∧ (andFoldG 4 7 5).isSome = true ∧
    (orlshlFoldG 7 7 5).isSome = true ∧ (orlshrFoldG 7 7 5).isSome = true ∧
    (lshlFoldG 4 7 5).isSome = true ∧ (lshrFoldG 4 7 5).isSome = true ∧
    (bfeFoldG 8 3 12).isSome = true ∧ (sbfeFoldG 4 8 3 12).isSome = true ∧
    (bfiFoldG 8 3 7 5).isSome = true ∧ (bfiMaskG 8 3).isSome = true ∧
    (hasConsecutiveBitsG 12 8).isSome = true ∧ (mulFoldG 4 7 5).isSome = true :=
  fold_shift_amounts_defined 4 8 3 5 7 12 7 5 (by decide) (by decide) (by decide)
    (by decide) (by decide) (by decide)

theorem getIdx_setIdx_ne (l : List (Option Nat)) (i j : Nat) (v : Option Nat) (hij : i ≠ j) :
    getIdx (setIdx l i v) j = getIdx l j := by
  induction l generalizing i j with
  | nil => cases i <;> rfl
  | cons a rest ih =>
    cases i with
    | zero => cases j with
      | zero => exact absurd rfl hij
      | succ j' => rfl
    | succ i' => cases j with
      | zero => rfl
      | succ j' => exact ih i' j' (by omega)

theorem getIdx_setIdx_eq (l : List (Option Nat)) (i : Nat) (v w : Option Nat)
    (h : getIdx l i = some w) : getIdx (setIdx l i v) i = some v := by
  induction l generalizing i with
  | nil => cases i <;> exact Option.noConfusion h
  | cons a rest ih =>
    cases i with
    | zero => rfl
    | succ i' => exact ih i' h

theorem argOf_setIdx_ne (op : OpKind) (sz : Nat) (l : List (Option Nat)) (i j : Nat)
    (v : Option Nat) (hij : i ≠ j) :
    argOf ⟨op, sz, setIdx l i v⟩ j = argOf ⟨op, sz, l⟩ j := by
  simp [argOf, getIdx_setIdx_ne l i j v hij]

theorem isValueConstant_elim (s : IRState) (e : Option Nat) (v : Nat)
    (h : isValueConstant s e = some v) :
    ∃ j nd, e = some j ∧ lookupNode s j = some nd ∧ nd.op = .Constant v := by
  cases e with
  | none => exact Option.noConfusion h
  | some j =>
    cases hl : lookupNode s j with
    | none => simp [isValueConstant, hl] at h
    | some nd =>
      cases hop : nd.op <;> simp [isValueConstant, hl, hop] at h
      case Constant w => exact ⟨j, nd, rfl, hl, by rw [hop, h]⟩

theorem isValueConstant_intro (s : IRState) (j v : Nat) (nd : Node)
    (hl : lookupNode s j = some nd) (hop : nd.op = .Constant v) :
    isValueConstant s (some j) = some v := by
  simp [isValueConstant, hl, hop]

theorem createInlineConstant_spec (s : IRState) (cache : List (Nat × Nat)) (cur v : Nat)
    (hf : wfFresh s) (hwc : wfCache s cache) :
    ∃ s1 c1 j cur1, createInlineConstant s cache cur v = (s1, c1, j, cur1) ∧
      wfFresh s1 ∧ wfCache s1 c1 ∧
      lookupNode s1 j = some ⟨.InlineConstant v, 8, []⟩ ∧
      (∀ k nd, lookupNode s k = some nd → lookupNode s1 k = some nd) := by
  unfold createInlineConstant
  cases hfind : cache.find? (fun e => e.1 == v) with
  | some e =>
    have hmem := List.mem_of_find?_eq_some hfind
    have hkey : e.1 = v := by simpa using List.find?_some hfind
    refine ⟨s, cache, e.2, cur, rfl, hf, hwc, ?_, fun k nd hk => hk⟩
    have := hwc e hmem
    rw [hkey] at this
    exact this
  | none =>
    refine ⟨(emitAfter s cur ⟨.InlineConstant v, 8, []⟩).1, (v, s.nextId) :: cache, s.nextId,
      s.nextId, rfl, wfFresh_emitAfter s cur _ hf, ?_,
      lookupNode_emitAfter_new s cur _ hf, ?_⟩
    · intro q hq
      rcases List.mem_cons.mp hq with hq1 | hq1
      · rw [hq1]
        exact lookupNode_emitAfter_new s cur _ hf
      · exact lookupNode_emitAfter_old s cur _ q.2 _ hf (hwc q hq1)
    · intro k nd hk
      exact lookupNode_emitAfter_old s cur _ k nd hf hk

theorem wfCache_replaceNodeArgument (s : IRState) (cache : List (Nat × Nat))
    (id idx : Nat) (e : Option Nat) (n : Node)
    (hwc : wfCache s cache) (h : lookupNode s id = some n)
    (hsel : ∀ v, n.op ≠ .InlineConstant v) :
    wfCache (replaceNodeArgument s id idx e) cache := by
  intro q hq
  by_cases hqid : q.2 = id
  · have hcq := hwc q hq
    rw [hqid, h] at hcq
    have : n = ⟨.InlineConstant q.1, 8, []⟩ := Option.some_inj.mp hcq
    exact absurd (by rw [this]) (hsel q.1)
  · rw [lookupNode_replaceNodeArgument_ne s id idx q.2 e hqid]
    exact hwc q hq


theorem argOf_some_getIdx (n : Node) (i a : Nat) (h : argOf n i = some a) :
    getIdx n.args i = some (some a) := by
  unfold argOf at h
  cases hg : getIdx n.args i with
  | none => rw [hg] at h; exact Option.noConfusion h
  | some w => rw [hg] at h; simp only [Option.getD_some] at h; rw [h]

theorem inlineSelectArgs23_spec (s : IRState) (cache : List (Nat × Nat)) (id : Nat)
    (nA : Node) (a2 a3 v2 v3 : Nat)
    (hf : wfFresh s) (hwc : wfCache s cache)
    (hl : lookupNode s id = some nA) (hsel : nA.op = .Select)
    (ha2 : argOf nA 2 = some a2) (ha3 : argOf nA 3 = some a3)
    (hc2 : isValueConstant s (some a2) = some v2)
    (hc3 : isValueConstant s (some a3) = some v3)
    (hpred : (v2 = 1 ∨ v2 = allOnesFor nA.size) ∧ v3 = 0) :
    ∃ t cache2 j2 j3 nd,
      inlineSelectArgs23 s cache id = (t, cache2) ∧
      lookupNode t id = some nd ∧ nd.op = .Select ∧ nd.size = nA.size ∧
      argOf nd 2 = some j2 ∧ argOf nd 3 = some j3 ∧
      lookupNode t j2 = some ⟨.InlineConstant v2, 8, []⟩ ∧
      lookupNode t j3 = some ⟨.InlineConstant v3, 8, []⟩ := by
  obtain ⟨hpc, hc30⟩ := hpred
  have hnotinline : ∀ v, nA.op ≠ .InlineConstant v := by
    intro v hv
    rw [hsel] at hv
    exact OpKind.noConfusion hv
  have hcond : ((v2 == 1 || v2 == allOnesFor nA.size) && (v3 == 0)) = true := by
    subst hc30
    rcases hpc with hh | hh <;> subst hh <;> simp
  obtain ⟨s1, c1, j2, cur1, hr2, hf1, hwc1, hj2, hpres1⟩ :=
    createInlineConstant_spec s cache a2 v2 hf hwc
  have hlid1 : lookupNode s1 id = some nA := hpres1 id nA hl
  have hne2 : j2 ≠ id := by
    intro he
    rw [he, hlid1] at hj2
    have hx := congrArg Node.op (Option.some_inj.mp hj2)
    rw [hsel] at hx
    exact OpKind.noConfusion hx
  have hlB : lookupNode (replaceNodeArgument s1 id 2 (some j2)) id =
      some ⟨nA.op, nA.size, setIdx nA.args 2 (some j2)⟩ :=
    lookupNode_replaceNodeArgument_self s1 id 2 _ nA hlid1
  have hfB : wfFresh (replaceNodeArgument s1 id 2 (some j2)) :=
    wfFresh_replaceNodeArgument s1 id 2 _ hf1
  have hwcB : wfCache (replaceNodeArgument s1 id 2 (some j2)) c1 :=
    wfCache_replaceNodeArgument s1 c1 id 2 _ nA hwc1 hlid1 hnotinline
  have hjB2 : lookupNode (replaceNodeArgument s1 id 2 (some j2)) j2 =
      some ⟨.InlineConstant v2, 8, []⟩ := by
    rw [lookupNode_replaceNodeArgument_ne s1 id 2 j2 _ hne2]
    exact hj2
  obtain ⟨s3, c3, j3, cur3, hr3, hf3, hwc3, hj3, hpres3⟩ :=
    createInlineConstant_spec (replaceNodeArgument s1 id 2 (some j2)) c1 cur1 v3 hfB hwcB
  have hlid3 : lookupNode s3 id = some ⟨nA.op, nA.size, setIdx nA.args 2 (some j2)⟩ :=
    hpres3 id _ hlB
  have hj32 : lookupNode s3 j2 = some ⟨.InlineConstant v2, 8, []⟩ := hpres3 j2 _ hjB2
  have hne3 : j3 ≠ id := by
    intro he
    rw [he, hlid3] at hj3
    have hx := congrArg Node.op (Option.some_inj.mp hj3)
    simp only at hx
    rw [hsel] at hx
    exact OpKind.noConfusion hx
  have hg2 : getIdx (setIdx (setIdx nA.args 2 (some j2)) 3 (some j3)) 2 = some (some j2) := by
    rw [getIdx_setIdx_ne _ 3 2 _ (by omega)]
    exact getIdx_setIdx_eq nA.args 2 (some j2) (some a2) (argOf_some_getIdx nA 2 a2 ha2)
  have hg3 : getIdx (setIdx (setIdx nA.args 2 (some j2)) 3 (some j3)) 3 = some (some j3) := by
    refine getIdx_setIdx_eq _ 3 (some j3) (some a3) ?_
    rw [getIdx_setIdx_ne _ 2 3 _ (by omega)]
    exact argOf_some_getIdx nA 3 a3 ha3
  refine ⟨replaceNodeArgument s3 id 3 (some j3), c3, j2, j3,
    ⟨nA.op, nA.size, setIdx (setIdx nA.args 2 (some j2)) 3 (some j3)⟩, ?_, ?_, hsel, rfl,
    ?_, ?_, ?_, ?_⟩
  · simp only [inlineSelectArgs23, hl, ha2, ha3, hc2, hc3]
    rw [if_pos hcond]
    simp only [hr2]
    simp only [hr3]
  · have := lookupNode_replaceNodeArgument_self s3 id 3 (some j3) _ hlid3
    simpa using this
  · simp [argOf, hg2]
  · simp [argOf, hg3]
  · rw [lookupNode_replaceNodeArgument_ne s3 id 3 j2 _ hne2]
    exact hj32
  · rw [lookupNode_replaceNodeArgument_ne s3 id 3 j3 _ hne3]
    exact hj3


/-- C7 (amended).  When C3 processes a `Select` node whose arguments 2 and 3
are `Constant` nodes with values `c2` and `c3` such that `c2 = 1` or
`c2 = allOnes`, and `c3 = 0`, it replaces both operands with `InlineConstant`
nodes — where `allOnes` is `0xFFFFFFFFFFFFFFFF` when the destination width is
8 bytes and `0xFFFFFFFF` for every other destination width. -/
theorem select_inline_allones (tso : Bool) (s : IRState) (cache : List (Nat × Nat))
    (id a2 a3 c2 c3 : Nat) (n : Node)
    (hf : wfFresh s) (hwc : wfCache s cache)
    (h : lookupNode s id = some n) (hop : n.op = .Select)
    (ha2 : argOf n 2 = some a2) (ha3 : argOf n 3 = some a3)
    (hc2 : isValueConstant s (some a2) = some c2)
    (hc3 : isValueConstant s (some a3) = some c3)
    (hpred : (c2 = 1 ∨ c2 = allOnesFor n.size) ∧ c3 = 0) :
    ∃ t cache2 j2 j3 nd,
      inlineNode tso (s, cache) id = (t, cache2) ∧
      lookupNode t id = some nd ∧ nd.op = .Select ∧ nd.size = n.size ∧
      argOf nd 2 = some j2 ∧ argOf nd 3 = some j3 ∧
      lookupNode t j2 = some ⟨.InlineConstant c2, 8, []⟩ ∧
      lookupNode t j3 = some ⟨.InlineConstant c3, 8, []⟩ := by
  obtain ⟨op, sz, args⟩ := n
  simp only at hop ha2 ha3 hpred ⊢
  subst hop
  simp only [inlineNode, h]
  simp only [inlineSelect]
  rcases hA1 : isValueConstant s (argOf ⟨.Select, sz, args⟩ 1) with _ | c1
  · simp only [hA1]
    exact inlineSelectArgs23_spec s cache id ⟨.Select, sz, args⟩ a2 a3 c2 c3 hf hwc h rfl
      ha2 ha3 hc2 hc3 hpred
  · rcases hArg1 : argOf ⟨.Select, sz, args⟩ 1 with _ | a1
    · simp only [hA1, hArg1]
      exact inlineSelectArgs23_spec s cache id ⟨.Select, sz, args⟩ a2 a3 c2 c3 hf hwc h rfl
        ha2 ha3 hc2 hc3 hpred
    · simp only [hA1, hArg1]
      by_cases himm : IsImmAddSub c1 = true
      · rw [if_pos himm]
        simp only [inlineArg]
        obtain ⟨s1, cc1, j1, cur1, hr1, hf1, hwc1, hj1, hpres1⟩ :=
          createInlineConstant_spec s cache a1 c1 hf hwc
        simp only [hr1]
        have hlid1 : lookupNode s1 id = some ⟨.Select, sz, args⟩ := hpres1 id _ h
        have hlA : lookupNode (replaceNodeArgument s1 id 1 (some j1)) id =
            some ⟨.Select, sz, setIdx args 1 (some j1)⟩ := by
          simpa using lookupNode_replaceNodeArgument_self s1 id 1 (some j1) _ hlid1
        have hfA := wfFresh_replaceNodeArgument s1 id 1 (some j1) hf1
        have hwcA := wfCache_replaceNodeArgument s1 cc1 id 1 (some j1) _ hwc1 hlid1
          (fun v hv => OpKind.noConfusion hv)
        obtain ⟨a2j, nd2, he2, hld2, hop2⟩ := isValueConstant_elim s (some a2) c2 hc2
        cases Option.some_inj.mp he2
        obtain ⟨a3j, nd3, he3, hld3, hop3⟩ := isValueConstant_elim s (some a3) c3 hc3
        cases Option.some_inj.mp he3
        have ha2id : a2 ≠ id := by
          intro he
          rw [he, h] at hld2
          have hx := congrArg Node.op (Option.some_inj.mp hld2)
          rw [hop2] at hx
          exact OpKind.noConfusion hx
        have ha3id : a3 ≠ id := by
          intro he
          rw [he, h] at hld3
          have hx := congrArg Node.op (Option.some_inj.mp hld3)
          rw [hop3] at hx
          exact OpKind.noConfusion hx
        have hc2A : isValueConstant (replaceNodeArgument s1 id 1 (some j1)) (some a2) =
            some c2 := by
          refine isValueConstant_intro _ a2 c2 nd2 ?_ hop2
          rw [lookupNode_replaceNodeArgument_ne s1 id 1 a2 _ ha2id]
          exact hpres1 a2 nd2 hld2
        have hc3A : isValueConstant (replaceNodeArgument s1 id 1 (some j1)) (some a3) =
            some c3 := by
          refine isValueConstant_intro _ a3 c3 nd3 ?_ hop3
          rw [lookupNode_replaceNodeArgument_ne s1 id 1 a3 _ ha3id]
          exact hpres1 a3 nd3 hld3
        have ha2A : argOf ⟨OpKind.Select, sz, setIdx args 1 (some j1)⟩ 2 = some a2 := by
          rw [argOf_setIdx_ne OpKind.Select sz args 1 2 (some j1) (by omega)]
          exact ha2
        have ha3A : argOf ⟨OpKind.Select, sz, setIdx args 1 (some j1)⟩ 3 = some a3 := by
          rw [argOf_setIdx_ne OpKind.Select sz args 1 3 (some j1) (by omega)]
          exact ha3
        exact inlineSelectArgs23_spec (replaceNodeArgument s1 id 1 (some j1)) cc1 id
          ⟨.Select, sz, setIdx args 1 (some j1)⟩ a2 a3 c2 c3 hfA hwcA hlA rfl
          ha2A ha3A hc2A hc3A hpred
      · rw [if_neg himm]
        exact inlineSelectArgs23_spec s cache id ⟨.Select, sz, args⟩ a2 a3 c2 c3 hf hwc h rfl
          ha2 ha3 hc2 hc3 hpred


/-- C7 counterexample.  A `Select` of destination width 2 whose argument 2 is
`Constant (2^64 - 1)` and argument 3 is `Constant 0` satisfies the claim
predicate (the claim makes allOnes equal `2^64 - 1` for every width other
than 4), yet the inliner leaves the node and both operands unchanged: the
code compares against `0xFFFFFFFF` for every width other than 8. -/
theorem select_allones_small_size_counterexample :
    lookupNode selectSmallEx 4 = some ⟨.Select, 2, [some 0, some 1, some 2, some 3]⟩ ∧
    isValueConstant selectSmallEx (some 2) = some (2 ^ 64 - 1) ∧
    isValueConstant selectSmallEx (some 3) = some 0 ∧
    inlineNode false (selectSmallEx, []) 4 = (selectSmallEx, []) := by
  refine ⟨by decide, by decide, by decide, by decide⟩

/-- Witness for the C7 theorem: a `Select` of width 4 with arguments
`Constant 0xFFFFFFFF` and `Constant 0` has both operands replaced by
inline constants. -/
theorem select_inline_allones_witness :
    ∃ t cache2 j2 j3 nd,
      inlineNode false (selectInlineEx, []) 4 = (t, cache2) ∧
      lookupNode t 4 = some nd ∧ nd.op = .Select ∧ nd.size = 4 ∧
      argOf nd 2 = some j2 ∧ argOf nd 3 = some j3 ∧
      lookupNode t j2 = some ⟨.InlineConstant 4294967295, 8, []⟩ ∧
      lookupNode t j3 = some ⟨.InlineConstant 0, 8, []⟩ :=
  select_inline_allones false selectInlineEx [] 4 2 3 4294967295 0
    ⟨.Select, 4, [some 0, some 1, some 2, some 3]⟩ (by decide) (by decide) (by decide)
    (by decide) (by decide) (by decide) (by decide) (by decide)
    ⟨Or.inr (by decide), rfl⟩

theorem constPropAll_fixpoint (s : IRState) :
    ∀ l : List Nat, (∀ id ∈ l, constPropNode s id = some s) → constPropAll s l = some s := by
  intro l
  induction l with
  | nil => intro _; rfl
  | cons a rest ih =>
    intro hc
    have ha := hc a (List.mem_cons_self _ _)
    simp only [constPropAll, ha]
    exact ih (fun id hid => hc id (List.mem_cons_of_mem _ hid))

/-- C8 (amended).  Running the pass a second time is not a no-op in general
(see the counterexample: redirect-style rewrites re-emit fresh helper nodes).
A run is the identity precisely when each phase already acts as the identity:
if constant pooling leaves the IR unchanged, every node's constant-propagation
step leaves it unchanged, and constant inlining leaves it unchanged, then
`Run` returns the IR unchanged. -/
theorem run_fixpoint_of_phase_fixpoints (inl tso : Bool) (s : IRState)
    (hp : handleConstantPools s = s)
    (hc : ∀ id ∈ idsOf s, constPropNode s id = some s)
    (hi : constantInlining tso s = s) :
    runPass inl tso s = some s := by
  simp only [runPass]
  rw [hp, constPropAll_fixpoint s (idsOf s) hc]
  cases inl
  · rfl
  · simp [hi]

/-- C8 counterexample.  On a block holding a same-operand `Xor`, the first
run emits a fresh `Constant 0`; running the pass again on that output emits
yet another fresh `Constant 0`, so the second run is not a no-op on the
output of the first. -/
theorem run_not_idempotent_counterexample :
    runPass false false xorSameEx = some xorSameOnce ∧
    runPass false false xorSameOnce = some xorSameTwice ∧
    xorSameTwice ≠ xorSameOnce := by
  refine ⟨by decide, by decide, by decide⟩

/-- Witness for the C8 theorem: a single untouched node is a fixpoint of
every phase, and `Run` maps it to itself. -/
theorem run_fixpoint_of_phase_fixpoints_witness :
    runPass true true singleOtherEx = some singleOtherEx :=
  run_fixpoint_of_phase_fixpoints true true singleOtherEx (by decide) (by decide) (by decide)

end FEXIR
